import Mathlib

/-!
# Verification of the Aura Crawler_Extractor paper-lifecycle core

A shallow embedding, in Lean 4, of the state-machine and batch-processing
core of the `Crawler_Extractor` package:

* `src/common/dtos.py` — the record model (`PaperRecord`, `PaperState`,
  `StageOutcome`, `MAX_PROCESSING_ATTEMPTS`);
* `src/common/repository.py` — `PaperRepository` (`update_state`,
  `increment_attempts`, `fetch_by_state`, `create_pdf_placeholder`,
  `register_score`, `save_text_reference`, `insert_pgx_extractions`);
* `src/pipelines/attempts.py` — the attempt gate;
* `src/pipelines/processing_steps.py` — the stage functions `fetch_pdf`,
  `score_text`, `extract_citations`, `process_pgx_extraction` and their
  helpers `_insert_citations`, `_blocked_source_url`, `_is_blocked_host`;
* `src/pipelines/pgx_extraction_stage.py` — `process_pgx_extraction_batch`;
* `src/pipelines/paper_processor.py` — `PaperProcessor.run` and
  `stage_for_state`;
* the `as_completed` outcome-collection pattern shared by
  `src/pipelines/text_stage.py`, `scoring_stage.py` and `citation_stage.py`.

Modelling conventions:

* The backing Supabase table is an in-memory list of rows, kept in insertion
  (`created_at`) order; `updated_at`/`created_at` timestamps (wall clock) are
  omitted.  The row payload carries every column the embedded code writes,
  including `model_name` and `duration_ms`, which the Python `PaperRecord`
  dataclass does not read back.
* `uuid4()` is modelled by a fresh-id counter: generated ids use the
  `PaperId.auto` constructor, pre-existing ids the `PaperId.str` constructor.
  Freshness of uuid4 against existing rows is an assumption of the real
  system and appears as the `noAutoIds` hypothesis where needed.
* Byte strings (PDF bytes, blob contents) are modelled as `String`;
  UTF-8 decoding is the identity.  The MD5 hex digest and the PDF page
  counter are opaque collaborator functions passed as parameters.
* Fallible collaborator calls return `Except String`; a `.error` models a
  raised Python exception, and `Except`-bind models propagation.  The
  backing store is modelled as accepting every insert (the test doubles in
  `tests/pipelines/fakes.py` behave the same way); the duplicate-title /
  transient-disconnect `except` arms of `_insert_citations` are therefore
  never taken in the model.
* Every repository call, every PDF-fetcher call, and every entry into
  `process_pgx_extraction` is recorded in an event trace, so that claims
  about call counts ("zero calls to the fetch collaborator", "exactly 2
  fetch_by_state queries") are statable.
* Python `float` scores are modelled as `Rat`; the code only compares
  scores with `>=` and never computes with them.
* Python's `str.lower`/`str.casefold` are modelled by per-character
  lowercasing, and `str.strip` by trimming the Python whitespace set;
  this agrees with CPython on the ASCII data the pipeline handles.
-/

set_option autoImplicit false

namespace Aura

/-- `MAX_PROCESSING_ATTEMPTS` from `src/common/dtos.py`. -/
def MAX_PROCESSING_ATTEMPTS : Nat := 2

/-- The `PaperState` enum from `src/common/dtos.py`. -/
inductive PaperState where
  | PDF_AVAILABLE
  | TEXT_AVAILABLE
  | SCORED
  | PROCESSED
  | PROCESSED_LOW_SCORE
  | PDF_NOT_AVAILABLE
  | FAILED
  | P1
  | P1_WIP
  | P1_SUCCESS
  | P1_FAILURE
deriving DecidableEq, Repr

/-- The persisted string value of each `PaperState` enum member. -/
def PaperState.value : PaperState → String
  | .PDF_AVAILABLE => "PDF Available"
  | .TEXT_AVAILABLE => "Text Available"
  | .SCORED => "Scored"
  | .PROCESSED => "Processed"
  | .PROCESSED_LOW_SCORE => "Processed (Low Score)"
  | .PDF_NOT_AVAILABLE => "PDF Not Available"
  | .FAILED => "Failed"
  | .P1 => "P1"
  | .P1_WIP => "P1WIP"
  | .P1_SUCCESS => "P1Success"
  | .P1_FAILURE => "P1Failure"

/-- Paper ids: opaque strings in Python.  `auto n` models the `n`-th id
produced by `uuid4()` inside `create_pdf_placeholder`; `str v` models any
id assigned outside that path.  (uuid4 freshness is an assumption of the
real system.) -/
inductive PaperId where
  | str (v : String)
  | auto (n : Nat)
deriving DecidableEq, Repr

/-- Rendering of a `PaperId`, used for the `pending://` placeholder URI. -/
def PaperId.render : PaperId → String
  | .str v => v
  | .auto n => "auto-" ++ toString n

/-- JSON-ish values stored in the open-ended `metadata` dict. -/
inductive MVal where
  | s (v : String)
  | n (v : Nat)
  | q (v : Rat)
  | b (v : Bool)
  | null
  | o (kvs : List (String × MVal))

/-- A Python dict with string keys, as an association list in insertion
order with unique keys. -/
abbrev Meta := List (String × MVal)

/-- `m.get(k)` (first binding wins, as keys are unique). -/
def Meta.get (m : Meta) (k : String) : Option MVal :=
  (m.find? (fun kv => decide (kv.1 = k))).map (·.2)

/-- `k in m`. -/
def Meta.hasKey (m : Meta) (k : String) : Bool :=
  m.any (fun kv => decide (kv.1 = k))

/-- `m[k] = v` for a Python dict: replaces the value in place when the key
exists, appends otherwise.  Also models the merge `{**m, k: v}`. -/
def Meta.set (m : Meta) (k : String) (v : MVal) : Meta :=
  if Meta.hasKey m k then
    m.map (fun kv => if kv.1 = k then (k, v) else kv)
  else m ++ [(k, v)]

/-- `m.setdefault(k, v)`. -/
def Meta.setdefault (m : Meta) (k : String) (v : MVal) : Meta :=
  if Meta.hasKey m k then m else m ++ [(k, v)]

/-- One row of the `papers` table, with every column the embedded code
reads or writes.  `source_uri`/`text_uri` are the columns behind the
`pdf_ref`/`text_ref` record fields (`PaperRepository._to_record` wraps
them in `StorageRef`; the wrapper is just the URI).  `model_name` and
`duration_ms` are written by `register_score` but never read back. -/
structure Row where
  id : PaperId
  title : String
  status : PaperState
  level : Nat := 1
  attempts : Nat := 0
  source_uri : Option String := none
  text_uri : Option String := none
  score : Option Rat := none
  reason : Option String := none
  pdf_md5 : Option String := none
  parent_id : Option PaperId := none
  seed_number : Option Nat := none
  metadata : Meta := []
  model_name : Option String := none
  duration_ms : Option Nat := none

/-- `StageOutcome` from `src/common/dtos.py`. -/
structure StageOutcome where
  paper_id : PaperId
  stage : String
  success : Bool
  message : String
  metadata : Meta := []

/-- One row inserted into the `pgx_extractions` table
(`PgxExtractor.extract_pdf` sample fields, see `process_pgx_extraction`). -/
structure SampleRow where
  sample_id : Option String := none
  gene : Option String := none
  allele : Option String := none
  rs_id : Option String := none
  medication : Option String := none
  outcome : Option String := none
  actionability : Option String := none
  cpic_recommendation : Option String := none
  source_context : Option String := none

/-- Observable events: repository calls, PDF-fetcher calls, and entry into
the PGX stage function (recording the attempts count the stage sees). -/
inductive Event where
  | fetchByState (state : PaperState) (limit : Nat)
  | updateState (pid : PaperId) (state : PaperState)
  | incrementAttempts (pid : PaperId)
  | createPlaceholder (title : String)
  | insertPgx (pid : PaperId) (count : Nat)
  | fetcherCall (pid : PaperId)
  | pgxExec (pid : PaperId) (attempts : Nat)
deriving DecidableEq, Repr

/-- The world the repository mutates: the `papers` table (insertion order =
`created_at` order), the `pgx_extractions` table (table name, paper id,
row), the uuid4 counter, and the event trace. -/
structure St where
  papers : List Row
  pgx : List (String × PaperId × SampleRow) := []
  nextId : Nat := 0
  events : List Event := []

/-- One entry of the `updates` dict accepted by
`PaperRepository.update_state` (every key the embedded code passes). -/
inductive UpdateEntry where
  | reason (v : Option String)
  | metadata (v : Meta)
  | source_uri (v : String)
  | text_uri (v : String)
  | pdf_md5 (v : Option String)
  | score (v : Rat)
  | model_name (v : String)
  | duration_ms (v : Nat)
  | attempts (v : Nat)

/-- Whether an `updates` entry has key `"attempts"` (the key
`update_state` strips out). -/
def UpdateEntry.isAttemptsKey : UpdateEntry → Bool
  | .attempts _ => true
  | _ => false

/-- Apply one `updates` entry to a row (one column assignment of the
Supabase `update`). -/
def applyUpdate (r : Row) : UpdateEntry → Row
  | .reason v => { r with reason := v }
  | .metadata v => { r with metadata := v }
  | .source_uri v => { r with source_uri := some v }
  | .text_uri v => { r with text_uri := some v }
  | .pdf_md5 v => { r with pdf_md5 := v }
  | .score v => { r with score := some v }
  | .model_name v => { r with model_name := some v }
  | .duration_ms v => { r with duration_ms := some v }
  | .attempts v => { r with attempts := v }

/-- `PaperRepository.update_state` (`src/common/repository.py`, lines
377-393): build `values` with the new state and `attempts = 0`, merge in
the `updates` dict with its `"attempts"` key stripped, apply to every row
matching the id and return the first; raise when no row matched. -/
def update_state (st : St) (pid : PaperId) (state : PaperState)
    (updates : List UpdateEntry := []) : Except String (Row × St) :=
  let sanitized := updates.filter (fun u => !u.isAttemptsKey)
  let applyRow := fun (r : Row) =>
    sanitized.foldl applyUpdate { r with status := state, attempts := 0 }
  match st.papers.find? (fun r => decide (r.id = pid)) with
  | none => .error "Supabase returned no rows for mutation"
  | some r =>
      .ok (applyRow r,
        { st with
          papers := st.papers.map (fun row => if row.id = pid then applyRow row else row),
          events := st.events ++ [.updateState pid state] })

/-- `PaperRepository.increment_attempts`: sets the `attempts` column to
`current + 1` (an absolute write of the caller-supplied counter). -/
def increment_attempts (st : St) (pid : PaperId) (current : Nat) :
    Except String (Row × St) :=
  let bump := fun (r : Row) => { r with attempts := current + 1 }
  match st.papers.find? (fun r => decide (r.id = pid)) with
  | none => .error "Supabase returned no rows for mutation"
  | some r =>
      .ok (bump r,
        { st with
          papers := st.papers.map (fun row => if row.id = pid then bump row else row),
          events := st.events ++ [.incrementAttempts pid] })

/-- `PaperRepository.create_pdf_placeholder`: inserts a fresh
`PDF Not Available` row with a uuid4 id and a `pending://` source URI. -/
def create_pdf_placeholder (st : St) (title : String) (parent : PaperId)
    (level : Nat) (seed : Option Nat) (metadata : Meta) : Row × St :=
  let pid := PaperId.auto st.nextId
  let row : Row :=
    { id := pid, title := title, status := .PDF_NOT_AVAILABLE, level := level,
      attempts := 0, source_uri := some ("pending://" ++ pid.render),
      parent_id := some parent, seed_number := seed, metadata := metadata }
  (row,
    { st with
      papers := st.papers ++ [row],
      nextId := st.nextId + 1,
      events := st.events ++ [.createPlaceholder title] })

/-- Stable sort by `level` ascending, ties kept in list (`created_at`)
order: models `.order("level").order("created_at")`. -/
def sortByLevel (l : List Row) : List Row :=
  l.insertionSort (fun a b => a.level ≤ b.level)

/-- `PaperRepository.fetch_by_state`: rows in the given state, ordered by
level then creation time, limited. -/
def fetch_by_state (st : St) (state : PaperState) (limit : Nat) :
    List Row × St :=
  (((st.papers.filter (fun r => decide (r.status = state))).insertionSort
      (fun a b => a.level ≤ b.level)).take limit,
   { st with events := st.events ++ [.fetchByState state limit] })

/-- `PaperRepository.insert_pgx_extractions`: bulk insert; an empty row
list short-circuits to 0 without touching the store. -/
def insert_pgx_extractions (st : St) (pid : PaperId) (rows : List SampleRow)
    (table : String) : Nat × St :=
  if rows.isEmpty then (0, st)
  else
    (rows.length,
     { st with
       pgx := st.pgx ++ rows.map (fun r => (table, pid, r)),
       events := st.events ++ [.insertPgx pid rows.length] })

/-- `PaperRepository.register_score`: delegates to `update_state` with the
score payload. -/
def register_score (st : St) (pid : PaperId) (score : Rat) (reason : String)
    (model_name : String) (duration_ms : Nat) (state : PaperState) :
    Except String (Row × St) :=
  update_state st pid state
    [.score score, .reason (some reason), .model_name model_name,
     .duration_ms duration_ms]

/-- `PaperRepository.save_text_reference`: delegates to `update_state`. -/
def save_text_reference (st : St) (pid : PaperId) (text_uri : String) :
    Except String (Row × St) :=
  update_state st pid .TEXT_AVAILABLE [.text_uri text_uri]

/-- `filter_processable` from `src/pipelines/attempts.py`. -/
def filter_processable (papers : List Row) : List Row :=
  papers.filter (fun r => decide (r.attempts ≤ MAX_PROCESSING_ATTEMPTS))

/-- `mark_processing_attempt` from `src/pipelines/attempts.py`. -/
def mark_processing_attempt (st : St) (paper : Row) : Except String (Row × St) :=
  increment_attempts st paper.id paper.attempts

/-! ## Python string helpers

Implemented over `String.data` character lists so that every helper
reduces inside the kernel. -/

/-- Python's whitespace set for `str.strip` (space, tab, LF, CR, VT, FF). -/
def isPyWs (c : Char) : Bool :=
  c == ' ' || c == '\t' || c == '\n' || c == '\r' ||
  c == Char.ofNat 11 || c == Char.ofNat 12

/-- `str.strip()`. -/
def trimStr (s : String) : String :=
  String.mk (((s.data.dropWhile isPyWs).reverse.dropWhile isPyWs).reverse)

/-- `str.lower()` (and `str.casefold()`, which agrees on ASCII). -/
def lcStr (s : String) : String := String.mk (s.data.map Char.toLower)

/-- `s.startswith(p)`. -/
def startsWithStr (p s : String) : Bool := p.data.isPrefixOf s.data

/-- `s[n:]`. -/
def dropStr (n : Nat) (s : String) : String := String.mk (s.data.drop n)

/-- `s[:n]`. -/
def takeStr (n : Nat) (s : String) : String := String.mk (s.data.take n)

/-- Characters allowed in a URL scheme after the leading letter. -/
def isSchemeChar (c : Char) : Bool :=
  c.isAlphanum || c == '+' || c == '-' || c == '.'

/-- Strip a leading `scheme:` as `urllib.parse.urlparse` does: only when a
colon is present and everything before it is a letter-led scheme token. -/
def stripScheme (l : List Char) : List Char :=
  let pre := l.takeWhile (fun c => !(c == ':'))
  match pre with
  | [] => l
  | c :: _ =>
      if pre.length < l.length && c.isAlpha && pre.all isSchemeChar then
        l.drop (pre.length + 1)
      else l

/-- Suffix after the last occurrence of `sep` (the whole list when absent):
used to drop the userinfo part of a netloc. -/
def afterLastSep (sep : Char) (l : List Char) : List Char :=
  (l.reverse.takeWhile (fun c => !(c == sep))).reverse

/-- `urlparse(url).hostname` for the URL shapes the crawler sees: the
netloc is what follows `//` up to `/`, `?` or `#`; userinfo before `@` and
a `:port` suffix are dropped and the host is lowercased.  (IPv6 bracket
syntax is not modelled.) -/
def urlHostname (url : String) : String :=
  match stripScheme url.data with
  | '/' :: '/' :: rest =>
      let netloc := rest.takeWhile (fun c => !(c == '/' || c == '?' || c == '#'))
      let host := (afterLastSep '@' netloc).takeWhile (fun c => !(c == ':'))
      String.mk (host.map Char.toLower)
  | _ => ""

/-- `BLOCKED_SOURCE_HOSTS` from `src/pipelines/processing_steps.py`. -/
def BLOCKED_SOURCE_HOSTS : List String := ["hdl.handle.net"]

/-- `_is_blocked_host`. -/
def isBlockedHost (url : String) : Bool :=
  BLOCKED_SOURCE_HOSTS.contains (urlHostname url)

/-- The `metadata.link.url` candidate of `_blocked_source_url`:
`str((paper.metadata.get("link") or {}).get("url") or "").strip()`.
Link URLs are written as strings by `_insert_link_placeholders`;
non-string values are not modelled. -/
def linkUrl (m : Meta) : String :=
  match Meta.get m "link" with
  | some (.o kv) =>
      match Meta.get kv "url" with
      | some (.s s) => trimStr s
      | _ => ""
  | _ => ""

/-- `_blocked_source_url` (`src/pipelines/processing_steps.py`, lines
408-419): collect the `url:`-prefixed title and the `metadata.link.url`
as candidates and return the first whose host is denylisted. -/
def blocked_source_url (paper : Row) : Option String :=
  let title := trimStr paper.title
  let fromTitle : List String :=
    if startsWithStr "url:" (lcStr title) then [trimStr (dropStr 4 title)] else []
  let lu := linkUrl paper.metadata
  let candidates := fromTitle ++ (if lu = "" then [] else [lu])
  candidates.find? isBlockedHost

/-! ## Stage collaborators -/

/-- `PdfCandidate` from `src/ingest/pdf_acquisition.py` (bytes as String). -/
structure Candidate where
  filename : String
  content : String
  source_url : String

/-- `ScoreResult` from `src/common/dtos.py`. -/
structure ScoreResult where
  score : Rat
  reason : String
  model_name : String
  duration_ms : Nat

/-- `CitationRecord` from `src/common/dtos.py`. -/
structure CitationRecord where
  raw_text : String

/-- The storage gateway interface (`src/ingest/storage_gateway.py`): a
`.error` result models a raised `StorageError`/exception. -/
structure Storage where
  store_pdf : PaperId → String → String → Except String String
  fetch_blob : String → Except String String

/-- `fetch_pdf` (`src/pipelines/processing_steps.py`, lines 46-124).
`md5hex` stands for `hashlib.md5(...).hexdigest()`; `fetcher` for
`PdfFetcher.fetch`, whose `.error` result models a raised exception and
whose `.ok none` models a "no candidate" miss.  Every fetcher call is
recorded in the trace. -/
def fetch_pdf (storage : Storage) (md5hex : String → String)
    (fetcher : Row → Except String (Option Candidate)) (paper : Row)
    (st : St) : Except String (StageOutcome × St) :=
  match blocked_source_url paper with
  | some url => do
      let (_, st) ← update_state st paper.id .FAILED
        [.reason (some ("blocked source host: " ++ url))]
      return ({ paper_id := paper.id, stage := "pdf_acquisition",
                success := false, message := "blocked source host",
                metadata := [("source_url", .s url)] }, st)
  | none =>
  if paper.attempts > MAX_PROCESSING_ATTEMPTS then do
    let (_, st) ← update_state st paper.id .FAILED
      [.reason (some "exceeded PDF acquisition attempts")]
    return ({ paper_id := paper.id, stage := "pdf_acquisition",
              success := false, message := "exceeded attempt limit" }, st)
  else
    let st := { st with events := st.events ++ [.fetcherCall paper.id] }
    match fetcher paper with
    | .error e =>
        .ok ({ paper_id := paper.id, stage := "pdf_acquisition",
               success := false, message := "fetch error",
               metadata := [("error", .s e)] }, st)
    | .ok none =>
        .ok ({ paper_id := paper.id, stage := "pdf_acquisition",
               success := false, message := "pdf not found",
               metadata := [("reason", .s "No PDF found")] }, st)
    | .ok (some candidate) =>
        let pdf_hash := md5hex candidate.content
        match storage.store_pdf paper.id candidate.filename candidate.content with
        | .error e =>
            .ok ({ paper_id := paper.id, stage := "pdf_acquisition",
                   success := false, message := "storage error",
                   metadata := [("error", .s e)] }, st)
        | .ok pdf_uri => do
            let metadata := Meta.set paper.metadata "acquisition"
              (.o [("source_url", .s candidate.source_url)])
            let (_, st) ← update_state st paper.id .PDF_AVAILABLE
              [.source_uri pdf_uri, .metadata metadata, .pdf_md5 (some pdf_hash)]
            return ({ paper_id := paper.id, stage := "pdf_acquisition",
                      success := true, message := "pdf stored",
                      metadata := [("source_url", .s candidate.source_url),
                                   ("pdf_md5", .s pdf_hash)] }, st)

/-- `score_text` (`src/pipelines/processing_steps.py`, lines 159-203):
fail hard when the record has no text reference; otherwise fetch the text,
score it, and persist `Scored` when `score >= threshold`, else
`Processed (Low Score)`.  Exceptions from `fetch_blob`/`score` propagate
(they are caught at the `PaperProcessor` boundary, not here). -/
def score_text (storage : Storage)
    (scorer : String → Option Nat → Except String ScoreResult)
    (threshold : Rat) (paper : Row) (st : St) :
    Except String (StageOutcome × St) :=
  match paper.text_uri with
  | none => do
      let (_, st) ← update_state st paper.id .FAILED
        [.reason (some "Paper missing text reference")]
      return ({ paper_id := paper.id, stage := "scoring", success := false,
                message := "paper missing text" }, st)
  | some text_ref => do
      let text ← storage.fetch_blob text_ref
      let result ← scorer text paper.seed_number
      let eligible := threshold ≤ result.score
      let next_state := if eligible then PaperState.SCORED
        else PaperState.PROCESSED_LOW_SCORE
      let (_, st) ← register_score st paper.id result.score result.reason
        result.model_name result.duration_ms next_state
      return ({ paper_id := paper.id, stage := "scoring", success := true,
                message := "scored",
                metadata := [("score", .q result.score),
                             ("eligible_for_citations", .b eligible)] }, st)

/-! ## Citation extraction -/

/-- `str.casefold()` (per-character lowercasing; agrees with CPython on the
ASCII titles the pipeline handles). -/
def casefold (s : String) : String := lcStr s

/-- The placeholder title `_insert_citations` derives from a raw citation
string: `(raw or "").strip()[:255] or "Citation"`. -/
def citationTitle (raw : String) : String :=
  let t := takeStr 255 (trimStr raw)
  if t = "" then "Citation" else t

/-- The case-insensitive dedup key of `_insert_citations`. -/
def normTitle (raw : String) : String := casefold (citationTitle raw)

/-- `{"citation": asdict(citation)}`. -/
def citationMeta (c : CitationRecord) : Meta :=
  [("citation", .o [("raw_text", .s c.raw_text)])]

/-- The loop of `_insert_citations` (`src/pipelines/processing_steps.py`,
lines 374-405): walk the citations, skip those whose normalized title was
already seen, create a placeholder for the rest and count insertions.
The store accepts every insert in the model, so the duplicate-title
`except` arms are never taken. -/
def insert_citations_go (paper : Row) :
    List CitationRecord → List String → Nat → St → Nat × St
  | [], _, inserted, st => (inserted, st)
  | c :: cs, seen, inserted, st =>
      let title := citationTitle c.raw_text
      let normalized := casefold title
      if normalized ∈ seen then insert_citations_go paper cs seen inserted st
      else
        let created := create_pdf_placeholder st title paper.id
          (paper.level + 1) paper.seed_number (citationMeta c)
        insert_citations_go paper cs (normalized :: seen) (inserted + 1)
          created.2

/-- `_insert_citations`. -/
def insert_citations (st : St) (paper : Row) (cits : List CitationRecord) :
    Nat × St :=
  insert_citations_go paper cits [] 0 st

/-- The citations that actually get a placeholder: first occurrence of
each normalized title not yet in `seen`. -/
def dedupNew : List CitationRecord → List String → List CitationRecord
  | [], _ => []
  | c :: cs, seen =>
      let normalized := normTitle c.raw_text
      if normalized ∈ seen then dedupNew cs seen
      else c :: dedupNew cs (normalized :: seen)

/-- The placeholder row created for citation `c` with uuid counter `k`. -/
def mkCitationRow (paper : Row) (c : CitationRecord) (k : Nat) : Row :=
  { id := .auto k, title := citationTitle c.raw_text,
    status := .PDF_NOT_AVAILABLE, level := paper.level + 1, attempts := 0,
    source_uri := some ("pending://" ++ (PaperId.auto k).render),
    parent_id := some paper.id, seed_number := paper.seed_number,
    metadata := citationMeta c }

/-- The placeholder rows created for a list of citations, with consecutive
uuid counters starting at `k`. -/
def mkCitationRows (paper : Row) : List CitationRecord → Nat → List Row
  | [], _ => []
  | c :: cs, k => mkCitationRow paper c k :: mkCitationRows paper cs (k + 1)

/-- `extract_citations` (`src/pipelines/processing_steps.py`, lines
206-243): soft-fail with no repository call when the score is missing or
below threshold or the text reference is missing; otherwise create one
placeholder per new normalized title and move the record to `Processed`
with the insertion count in its metadata. -/
def extract_citations (storage : Storage)
    (extractor : String → Except String (List CitationRecord))
    (threshold : Rat) (paper : Row) (st : St) :
    Except String (StageOutcome × St) :=
  match paper.score with
  | none =>
      .ok ({ paper_id := paper.id, stage := "citations", success := false,
             message := "paper below threshold" }, st)
  | some sc =>
      if sc < threshold then
        .ok ({ paper_id := paper.id, stage := "citations", success := false,
               message := "paper below threshold" }, st)
      else
        match paper.text_uri with
        | none =>
            .ok ({ paper_id := paper.id, stage := "citations", success := false,
                   message := "paper missing text" }, st)
        | some text_ref => do
            let text ← storage.fetch_blob text_ref
            let citations ← extractor text
            let ins := insert_citations st paper citations
            let (_, st) ← update_state ins.2 paper.id .PROCESSED
              [.metadata (Meta.set paper.metadata "citation_count" (.n ins.1))]
            return ({ paper_id := paper.id, stage := "citations",
                      success := true, message := "citations created",
                      metadata := [("count", .n ins.1)] }, st)

/-! ## Paper processor -/

/-- `STATE_TO_STAGE` / `PaperProcessor.stage_for_state`
(`src/pipelines/paper_processor.py`): the one stage allowed to act on a
state; `none` for terminal states and the PGX sub-workflow. -/
def stage_for_state : PaperState → Option String
  | .PDF_NOT_AVAILABLE => some "pdf_acquisition"
  | .PDF_AVAILABLE => some "text_extraction"
  | .TEXT_AVAILABLE => some "scoring"
  | .SCORED => some "citations"
  | _ => none

/-- A stage executor as `PaperProcessor.run` sees it: repository side
effects persist even when the executor raises, so the state comes back
alongside the `Except` result. -/
abbrev StageExecutor := Row → St → (Except String StageOutcome) × St

/-- The `except` arm of `PaperProcessor.run`: an uncaught exception
becomes a failure outcome carrying the exception text. -/
def wrapOutcome (pid : PaperId) (stage : String) :
    Except String StageOutcome → StageOutcome
  | .ok o => o
  | .error e =>
      { paper_id := pid, stage := stage, success := false,
        message := "unexpected error", metadata := [("error", .s e)] }

/-- `outcome.metadata.setdefault("duration_ms", duration_ms)`. -/
def annotateDuration (o : StageOutcome) (d : Nat) : StageOutcome :=
  { o with metadata := Meta.setdefault o.metadata "duration_ms" (.n d) }

/-- `PaperProcessor.run` (`src/pipelines/paper_processor.py`, lines
58-101): resolve the stage (explicit or inferred from the state; the
noop early-return skips everything else), charge one attempt, run the
executor from the `self._executors` dict (a missing key raises), wrap an
executor exception into a failure outcome and set `duration_ms` (the
timer value is the opaque parameter `duration_ms`). -/
def PaperProcessor.run (executors : String → Option StageExecutor)
    (paper : Row) (stage : Option String) (duration_ms : Nat) (st : St) :
    Except String (StageOutcome × St) :=
  match stage.orElse (fun _ => stage_for_state paper.status) with
  | none =>
      .ok ({ paper_id := paper.id, stage := "noop", success := false,
             message := "No actionable stage for " ++ paper.status.value }, st)
  | some target => do
      let (paper, st) ← mark_processing_attempt st paper
      match executors target with
      | none => .error "KeyError"
      | some executor =>
          let res := executor paper st
          .ok (annotateDuration (wrapOutcome paper.id target res.1) duration_ms,
            res.2)

/-! ## PGX extraction -/

/-- The hint attached to an empty PGX extraction result. -/
def PGX_HINT : String :=
  "No structured rows were returned from page-chunk extraction. Verify the model supports image input and the PDF contains readable tables/figures/text."

/-- A Python value that is an int or None. -/
def optNatVal : Option Nat → MVal
  | some n => .n n
  | none => .null

/-- `pdf_bytes if pdf_bytes is not None else storage.fetch_blob(source_ref)`:
the prefetched bytes, or a storage fetch that may raise. -/
def pgxBytes (storage : Storage) (src : String) : Option String → Except String String
  | some b => .ok b
  | none => storage.fetch_blob src

/-- `page_count if page_count is not None else pdf_page_count(bytes)`. -/
def pgxPages (pageCount : String → Except String Nat) (bytes : String) :
    Option Nat → Except String Nat
  | some n => .ok n
  | none => pageCount bytes

/-- The `except` arm of `process_pgx_extraction`: any exception in the
try-block marks the paper `P1Failure` with the exception text, reporting
the page count known at that moment. -/
def pgxFail (paper : Row) (pc : Option Nat) (e : String) (st : St) :
    Except String (StageOutcome × St) := do
  let (_, st) ← update_state st paper.id .P1_FAILURE [.reason (some e)]
  return ({ paper_id := paper.id, stage := "pgx_extraction", success := false,
            message := "pgx extraction failed",
            metadata := [("error", .s e), ("page_count", optNatVal pc)] }, st)

/-- `process_pgx_extraction` (`src/pipelines/processing_steps.py`, lines
246-341).  `extractor` models `PgxExtractor.extract_pdf`, `pageCount`
models `pdf_page_count`; a `.error` on either (or on the blob fetch)
models a raised exception, caught by the try-block.  The trace records
entry into the stage together with the attempts count of the record the
stage sees.  The bulk insert is modelled as always succeeding. -/
def process_pgx_extraction
    (extractor : String → Except String (List SampleRow))
    (pageCount : String → Except String Nat) (storage : Storage)
    (extraction_table : String) (paper : Row) (pdf_bytes : Option String)
    (page_count : Option Nat) (st : St) : Except String (StageOutcome × St) :=
  let st := { st with events := st.events ++ [.pgxExec paper.id paper.attempts] }
  match paper.source_uri with
  | none => do
      let (_, st) ← update_state st paper.id .P1_FAILURE
        [.reason (some "Paper missing source_uri")]
      return ({ paper_id := paper.id, stage := "pgx_extraction",
                success := false, message := "paper missing source_uri" }, st)
  | some source_ref =>
      match pgxBytes storage source_ref pdf_bytes with
      | .error e => pgxFail paper page_count e st
      | .ok current_pdf_bytes =>
          match pgxPages pageCount current_pdf_bytes page_count with
          | .error e => pgxFail paper none e st
          | .ok pc =>
              match extractor current_pdf_bytes with
              | .error e => pgxFail paper (some pc) e st
              | .ok samples =>
                  if samples.isEmpty then do
                    let (_, st) ← update_state st paper.id .P1_FAILURE
                      [.reason (some "No PGX samples extracted")]
                    return ({ paper_id := paper.id, stage := "pgx_extraction",
                              success := false,
                              message := "no pgx samples extracted",
                              metadata := [("page_count", .n pc),
                                           ("hint", .s PGX_HINT)] }, st)
                  else
                    let ins := insert_pgx_extractions st paper.id samples
                      extraction_table
                    do
                      let (_, st) ← update_state ins.2 paper.id .P1_SUCCESS
                        [.reason none,
                         .metadata (Meta.set paper.metadata
                           "pgx_extraction_count" (.n ins.1))]
                      return ({ paper_id := paper.id, stage := "pgx_extraction",
                                success := true,
                                message := "pgx extraction completed",
                                metadata := [("count", .n ins.1),
                                             ("page_count", .n pc)] }, st)

/-- `_FETCH_LIMIT` from `src/pipelines/pgx_extraction_stage.py`. -/
def PGX_FETCH_LIMIT : Nat := 100

/-- `random.choice(candidates)`: the random pick is modelled by the
oracle `choose`, reduced modulo the (nonempty) pool size. -/
def pickCandidate (choose : Nat → Nat) (fuel : Nat) (c : Row) (cs : List Row) :
    Row :=
  (c :: cs).get ⟨choose fuel % (c :: cs).length,
    Nat.mod_lt _ (Nat.succ_pos cs.length)⟩

/-- One iteration body of `process_pgx_extraction_batch` after the pick:
claim the candidate with `update_state(..., P1WIP)`, best-effort prefetch
the PDF bytes and page count (both dropped on any exception), stamp
`page_count` into the in-memory record (`dataclasses.replace`), charge
one attempt, and run the stage function. -/
def pgx_claim_and_run
    (extractor : String → Except String (List SampleRow))
    (pageCount : String → Except String Nat) (storage : Storage)
    (extraction_table : String) (sel : Row) (st : St) :
    Except String (StageOutcome × St) := do
  let (paper, st1) ← update_state st sel.id .P1_WIP
  let bp : Option String × Option Nat :=
    match paper.source_uri with
    | none => (none, none)
    | some r =>
        match storage.fetch_blob r with
        | .error _ => (none, none)
        | .ok b =>
            match pageCount b with
            | .error _ => (none, none)
            | .ok pg => (some b, some pg)
  let progress_paper := { paper with
    metadata := Meta.set paper.metadata "page_count" (optNatVal bp.2) }
  let (updated, st2) ← mark_processing_attempt st1 progress_paper
  process_pgx_extraction extractor pageCount storage extraction_table
    updated bp.1 bp.2 st2

/-- `process_pgx_extraction_batch` (`src/pipelines/pgx_extraction_stage.py`,
lines 19-89): while fewer than `batch_size` outcomes were produced,
re-query the `P1` pool, gate it by attempts, pick one random candidate
(`choose` models `random.choice` — the pick for each remaining-fuel
value, taken modulo the pool size), claim it with an `update_state` to
`P1WIP`, best-effort prefetch the PDF bytes and page count (both dropped
on any exception), stamp `page_count` into the in-memory record, charge
one attempt, and run the stage function.  `max_workers` is deleted by the
code and the progress/completion callbacks are observers, so neither is
modelled. -/
def process_pgx_extraction_batch
    (extractor : String → Except String (List SampleRow))
    (pageCount : String → Except String Nat) (storage : Storage)
    (extraction_table : String) (choose : Nat → Nat) :
    Nat → St → Except String (List StageOutcome × St)
  | 0, st => .ok ([], st)
  | fuel + 1, st =>
      let fetched := fetch_by_state st .P1 PGX_FETCH_LIMIT
      match filter_processable fetched.1 with
      | [] => .ok ([], fetched.2)
      | c :: cs => do
          let (outcome, st3) ← pgx_claim_and_run extractor pageCount storage
            extraction_table (pickCandidate choose fuel c cs) fetched.2
          let (rest, st4) ← process_pgx_extraction_batch extractor pageCount
            storage extraction_table choose fuel st3
          return (outcome :: rest, st4)

/-- Events that are `fetch_by_state(P1, ...)` queries. -/
def Event.isP1Fetch : Event → Bool
  | .fetchByState .P1 _ => true
  | _ => false

/-- Events that are `update_state(..., P1WIP)` claim transitions. -/
def Event.isP1WipClaim : Event → Bool
  | .updateState _ .P1_WIP => true
  | _ => false

/-- Number of `fetch_by_state(P1, ...)` queries in a trace. -/
def countP1Fetches (events : List Event) : Nat :=
  (events.filter Event.isP1Fetch).length

/-- Number of `P1WIP` claim transitions in a trace. -/
def countP1WipClaims (events : List Event) : Nat :=
  (events.filter Event.isP1WipClaim).length

/-! ## Parallel batch outcome collection -/

/-- One `as_completed` delivery: the result of future `idx` is stored in
the slot of its submission index (`outcomes[idx] = outcome`). -/
def collectStep (results : Nat → StageOutcome)
    (slots : List (Option StageOutcome)) (idx : Nat) :
    List (Option StageOutcome) :=
  slots.set idx (some (results idx))

/-- The parallel branch shared by `process_text_extraction_batch`
(`text_stage.py` lines 60-74), `process_scoring_batch` (`scoring_stage.py`
lines 63-77) and `process_citation_batch`: `n` futures are submitted with
their index as key, `as_completed` yields them in completion order
(`schedule`, a permutation of the indices), each result lands in its
submission slot, and the filled slots are returned.  `results idx` is
whatever outcome future `idx` produced (it may depend on arbitrary
interleaving; only its placement matters here). -/
def as_completed_collect (n : Nat) (results : Nat → StageOutcome)
    (schedule : List Nat) : List StageOutcome :=
  (schedule.foldl (collectStep results)
    (List.replicate n (none : Option StageOutcome))).filterMap id

/-- The status column of the (first) row with the given id. -/
def dbStatus (st : St) (pid : PaperId) : Option PaperState :=
  (st.papers.find? (fun r => decide (r.id = pid))).map (·.status)

/-! ## Concrete fixtures used by the witness theorems -/

def c1Row : Row :=
  { id := .str "p1", title := "Seed", status := .SCORED, attempts := 2 }

def c1St : St := { papers := [c1Row] }

def c1Result : Row × St :=
  match update_state c1St (.str "p1") .PROCESSED
      [.reason (some "done"), .attempts 5] with
  | .ok p => p
  | .error _ => (c1Row, c1St)

def c2Paper : Row :=
  { id := .str "p2", title := "Scored paper", status := .TEXT_AVAILABLE,
    text_uri := some "storage://texts/p2" }

def c2St : St := { papers := [c2Paper] }

def c2Storage : Storage :=
  { store_pdf := fun _ _ _ => .ok "storage://pdfs/p2",
    fetch_blob := fun _ => .ok "full text" }

def c2Scorer : String → Option Nat → Except String ScoreResult :=
  fun _ _ => .ok { score := 7, reason := "relevant", model_name := "m",
                   duration_ms := 10 }

def c3Paper : Row :=
  { id := .str "p3", title := "Scored paper", status := .SCORED,
    score := some 9, text_uri := some "storage://texts/p3",
    seed_number := some 4 }

def c3St : St := { papers := [c3Paper] }

def c3Extractor : String → Except String (List CitationRecord) :=
  fun _ => .ok [{ raw_text := "1. First Ref" }, { raw_text := "2. Second Ref" }]

def c3xPaper : Row :=
  { id := .str "p3x", title := "Scored paper", status := .SCORED,
    score := some 9, text_uri := some "storage://texts/p3x" }

def c3xSt : St := { papers := [c3xPaper] }

def c3xExtractor : String → Except String (List CitationRecord) :=
  fun _ => .ok [{ raw_text := "Ref" }, { raw_text := " Ref" }]

def c3xResult : StageOutcome × St :=
  match extract_citations c2Storage c3xExtractor 7 c3xPaper c3xSt with
  | .ok p => p
  | .error _ =>
      ({ paper_id := .str "unreachable", stage := "citations",
         success := false, message := "" }, c3xSt)

def c4Paper : Row :=
  { id := .str "p4", title := "Low paper", status := .SCORED,
    score := some 5, text_uri := some "storage://texts/p4" }

def c4St : St := { papers := [c4Paper] }

def c5Paper : Row :=
  { id := .str "p5", title := "Some candidate paper",
    status := .PDF_NOT_AVAILABLE, attempts := 1 }

def c5St : St := { papers := [c5Paper] }

def c5Storage : Storage :=
  { store_pdf := fun _ _ _ => .ok "storage://pdfs/x",
    fetch_blob := fun _ => .error "missing" }

def c6Paper : Row :=
  { id := .str "p6", title := "url:https://hdl.handle.net/x",
    status := .PDF_NOT_AVAILABLE }

def c6St : St := { papers := [c6Paper] }

def c8Executor : StageExecutor := fun _ s => (.error "boom", s)

def c8Executors : String → Option StageExecutor := fun _ => some c8Executor

def c8Paper : Row :=
  { id := .str "p8", title := "Text-ready paper", status := .TEXT_AVAILABLE }

def c8St : St := { papers := [c8Paper] }

def c8Inc : Row × St :=
  match mark_processing_attempt c8St c8Paper with
  | .ok p => p
  | .error _ => (c8Paper, c8St)

def c8xPaper : Row :=
  { id := .str "p8x", title := "Finished paper", status := .PROCESSED }

def c8xSt : St := { papers := [c8xPaper] }

def c8xNoop : StageOutcome :=
  { paper_id := .str "p8x", stage := "noop", success := false,
    message := "No actionable stage for Processed" }

def c9Results : Nat → StageOutcome :=
  fun i => { paper_id := .str ("p9-" ++ toString i),
             stage := "text_extraction", success := true,
             message := "extracted" }

def c7PaperA : Row :=
  { id := .str "a7", title := "PGX paper A", status := .P1,
    source_uri := some "storage://pdfs/a7" }

def c7PaperB : Row :=
  { id := .str "b7", title := "PGX paper B", status := .P1 }

def c7St : St := { papers := [c7PaperA, c7PaperB] }

def c7Extractor : String → Except String (List SampleRow) :=
  fun _ => .ok [{ gene := some "CYP2D6" }]

def c7PageCount : String → Except String Nat := fun _ => .ok 3

def c7Choose : Nat → Nat := fun _ => 0

def c10St : St := { papers := [c7PaperA] }

def c10Result : List StageOutcome × St :=
  match process_pgx_extraction_batch c7Extractor c7PageCount c5Storage
      "pgx_extractions" c7Choose 1 c10St with
  | .ok p => p
  | .error _ => ([], c10St)

section UpdateStateLemmas

/-- Entries other than `attempts` never touch the `attempts` column. -/
lemma applyUpdate_attempts (r : Row) (u : UpdateEntry)
    (h : u.isAttemptsKey = false) : (applyUpdate r u).attempts = r.attempts := by
  cases u <;> simp_all [applyUpdate, UpdateEntry.isAttemptsKey]

/-- No entry touches the id column. -/
lemma applyUpdate_id (r : Row) (u : UpdateEntry) :
    (applyUpdate r u).id = r.id := by
  cases u <;> rfl

/-- No entry touches the status column. -/
lemma applyUpdate_status (r : Row) (u : UpdateEntry) :
    (applyUpdate r u).status = r.status := by
  cases u <;> rfl

lemma foldl_applyUpdate_attempts (l : List UpdateEntry) (r : Row)
    (h : ∀ u ∈ l, u.isAttemptsKey = false) :
    (l.foldl applyUpdate r).attempts = r.attempts := by
  induction l generalizing r with
  | nil => rfl
  | cons u us ih =>
      simp only [List.foldl_cons]
      rw [ih _ (fun v hv => h v (List.mem_cons_of_mem _ hv)),
        applyUpdate_attempts _ _ (h u (List.mem_cons_self _ _))]

lemma foldl_applyUpdate_id (l : List UpdateEntry) (r : Row) :
    (l.foldl applyUpdate r).id = r.id := by
  induction l generalizing r with
  | nil => rfl
  | cons u us ih => simp only [List.foldl_cons]; rw [ih, applyUpdate_id]

lemma foldl_applyUpdate_status (l : List UpdateEntry) (r : Row) :
    (l.foldl applyUpdate r).status = r.status := by
  induction l generalizing r with
  | nil => rfl
  | cons u us ih => simp only [List.foldl_cons]; rw [ih, applyUpdate_status]

/-- The row `update_state` applies to matching rows: status is the new
state and attempts is 0, whatever the `updates` dict said. -/
lemma update_state_row_spec (updates : List UpdateEntry) (state : PaperState) (r : Row) :
    ((updates.filter (fun u => !u.isAttemptsKey)).foldl applyUpdate
        { r with status := state, attempts := 0 }).attempts = 0 ∧
    ((updates.filter (fun u => !u.isAttemptsKey)).foldl applyUpdate
        { r with status := state, attempts := 0 }).status = state ∧
    ((updates.filter (fun u => !u.isAttemptsKey)).foldl applyUpdate
        { r with status := state, attempts := 0 }).id = r.id := by
  refine ⟨?_, ?_, ?_⟩
  · rw [foldl_applyUpdate_attempts]
    intro u hu
    simpa using (List.of_mem_filter hu)
  · rw [foldl_applyUpdate_status]
  · rw [foldl_applyUpdate_id]

/-- Characterization of a successful `update_state`. -/
lemma update_state_ok {st : St} {pid : PaperId} {state : PaperState}
    {updates : List UpdateEntry} {row : Row} {st' : St}
    (h : update_state st pid state updates = .ok (row, st')) :
    row.attempts = 0 ∧ row.status = state ∧ row.id = pid ∧
    st'.papers = st.papers.map (fun r =>
      if r.id = pid then
        (updates.filter (fun u => !u.isAttemptsKey)).foldl applyUpdate
          { r with status := state, attempts := 0 }
      else r) ∧
    st'.events = st.events ++ [.updateState pid state] ∧
    st'.pgx = st.pgx ∧ st'.nextId = st.nextId := by
  unfold update_state at h
  cases hf : st.papers.find? (fun r => decide (r.id = pid)) with
  | none => rw [hf] at h; exact absurd h (by simp)
  | some r =>
      rw [hf] at h
      have hincl := List.find?_some hf
      have hid : r.id = pid := by simpa using hincl
      simp only [Except.ok.injEq, Prod.mk.injEq] at h
      obtain ⟨h1, h2⟩ := h
      refine ⟨?_, ?_, ?_, ?_, ?_, ?_, ?_⟩
      · rw [← h1]; exact (update_state_row_spec updates state r).1
      · rw [← h1]; exact (update_state_row_spec updates state r).2.1
      · rw [← h1, (update_state_row_spec updates state r).2.2, hid]
      · rw [← h2]
      · rw [← h2]
      · rw [← h2]
      · rw [← h2]

end UpdateStateLemmas

/-- Monadic bind on a successful `Except` just applies the continuation. -/
lemma exceptBindOk {α β : Type} (a : α) (f : α → Except String β) :
    (Except.ok a >>= f) = f a := rfl

section FindLemmas

/-- Applying an id-preserving update to the rows matching `pid` commutes
with looking the id up. -/
lemma find?_map_update (l : List Row) (pid : PaperId) (f : Row → Row)
    (hf : ∀ r, (f r).id = r.id) :
    (l.map (fun r => if r.id = pid then f r else r)).find?
        (fun r => decide (r.id = pid)) =
      (l.find? (fun r => decide (r.id = pid))).map f := by
  induction l with
  | nil => rfl
  | cons a l ih =>
      by_cases h : a.id = pid
      · simp only [List.map_cons, if_pos h]
        rw [List.find?_cons_of_pos _ (by simp [hf, h]),
          List.find?_cons_of_pos _ (by simp [h])]
        rfl
      · simp only [List.map_cons, if_neg h]
        rw [List.find?_cons_of_neg _ (by simp [h]),
          List.find?_cons_of_neg _ (by simp [h])]
        exact ih

/-- Unfolding equation for a successful `update_state`. -/
lemma update_state_eq_ok (st : St) (pid : PaperId) (state : PaperState)
    (updates : List UpdateEntry) (r : Row)
    (hf : st.papers.find? (fun r => decide (r.id = pid)) = some r) :
    update_state st pid state updates = .ok
      ((updates.filter (fun u => !u.isAttemptsKey)).foldl applyUpdate
          { r with status := state, attempts := 0 },
       { st with
         papers := st.papers.map (fun row =>
           if row.id = pid then
             (updates.filter (fun u => !u.isAttemptsKey)).foldl applyUpdate
               { row with status := state, attempts := 0 }
           else row),
         events := st.events ++ [.updateState pid state] }) := by
  unfold update_state
  rw [hf]

/-- After a successful `update_state`, the stored row for the id carries
the new state. -/
lemma dbStatus_after_update (st : St) (pid : PaperId) (state : PaperState)
    (updates : List UpdateEntry) (row : Row) (st' : St)
    (h : update_state st pid state updates = .ok (row, st')) :
    dbStatus st' pid = some state := by
  obtain ⟨-, -, -, hpapers, -⟩ := update_state_ok h
  unfold dbStatus
  rw [hpapers, find?_map_update _ _ _
    (fun r => (update_state_row_spec updates state r).2.2)]
  cases hf : st.papers.find? (fun r => decide (r.id = pid)) with
  | none =>
      exfalso
      unfold update_state at h
      rw [hf] at h
      exact absurd h (by simp)
  | some r0 =>
      simp only [Option.map_some']
      rw [(update_state_row_spec updates state r0).2.1]

end FindLemmas

/-- C5: a fetch miss (`fetcher` returns no candidate) on an unblocked,
in-budget `PdfNotAvailable` record is a soft failure: outcome
`success = false` with message "pdf not found", and the repository is not
mutated (only the fetcher call is traced), so the record keeps its state
and stays eligible for retry. -/
theorem fetch_pdf_not_found_soft_failure (storage : Storage)
    (md5hex : String → String) (fetcher : Row → Except String (Option Candidate))
    (paper : Row) (st : St)
    (hblocked : blocked_source_url paper = none)
    (hatt : paper.attempts ≤ MAX_PROCESSING_ATTEMPTS)
    (hfetch : fetcher paper = .ok none) :
    fetch_pdf storage md5hex fetcher paper st =
      .ok ({ paper_id := paper.id, stage := "pdf_acquisition", success := false,
             message := "pdf not found",
             metadata := [("reason", .s "No PDF found")] },
           { st with events := st.events ++ [.fetcherCall paper.id] }) ∧
    ({ st with events := st.events ++ [.fetcherCall paper.id] } : St).papers
      = st.papers := by
  refine ⟨?_, rfl⟩
  simp only [fetch_pdf, hblocked]
  rw [if_neg (Nat.not_lt.mpr hatt)]
  rw [hfetch]

/-- Concrete instance of C5: a miss leaves the single
`PDF Not Available` row untouched. -/
theorem fetch_pdf_not_found_soft_failure_witness :
    fetch_pdf c5Storage (fun _ => "d41d8cd9") (fun _ => .ok none) c5Paper c5St =
      .ok ({ paper_id := c5Paper.id, stage := "pdf_acquisition", success := false,
             message := "pdf not found",
             metadata := [("reason", .s "No PDF found")] },
           { c5St with events := c5St.events ++ [.fetcherCall c5Paper.id] }) ∧
    ({ c5St with events := c5St.events ++ [.fetcherCall c5Paper.id] } : St).papers
      = c5St.papers :=
  fetch_pdf_not_found_soft_failure c5Storage (fun _ => "d41d8cd9")
    (fun _ => .ok none) c5Paper c5St rfl (by decide) rfl

/-- C6: a record whose `url:`-prefixed title or `metadata.link.url` names
a denylisted host is failed immediately: the stored row moves to `Failed`,
the outcome message is "blocked source host", and the fetch collaborator
is never called (the only traced event is the `update_state`). -/
theorem fetch_pdf_blocked_host (storage : Storage) (md5hex : String → String)
    (fetcher : Row → Except String (Option Candidate)) (paper : Row) (st : St)
    (u : String)
    (hblocked : blocked_source_url paper = some u)
    (hid : (st.papers.find? (fun r => decide (r.id = paper.id))).isSome = true) :
    ∃ out st', fetch_pdf storage md5hex fetcher paper st = .ok (out, st') ∧
      out.message = "blocked source host" ∧ out.success = false ∧
      dbStatus st' paper.id = some .FAILED ∧
      st'.events = st.events ++ [.updateState paper.id .FAILED] := by
  obtain ⟨r, hr⟩ := Option.isSome_iff_exists.mp hid
  simp only [fetch_pdf, hblocked]
  rw [update_state_eq_ok _ _ _ _ _ hr]
  refine ⟨_, _, rfl, rfl, rfl, ?_, rfl⟩
  exact dbStatus_after_update _ _ _ _ _ _ (update_state_eq_ok _ _ _ _ _ hr)

/-- Concrete instance of C6: the title `"url:https://hdl.handle.net/x"`
is failed with zero fetcher calls. -/
theorem fetch_pdf_blocked_host_witness :
    ∃ out st', fetch_pdf c5Storage (fun _ => "d41d8cd9")
        (fun _ => .ok none) c6Paper c6St = .ok (out, st') ∧
      out.message = "blocked source host" ∧ out.success = false ∧
      dbStatus st' c6Paper.id = some .FAILED ∧
      st'.events = c6St.events ++ [.updateState c6Paper.id .FAILED] :=
  fetch_pdf_blocked_host c5Storage (fun _ => "d41d8cd9") (fun _ => .ok none)
    c6Paper c6St "https://hdl.handle.net/x" rfl rfl

section MetaLemmas

lemma meta_get_map_set (k : String) (v : MVal) :
    ∀ (m : Meta), Meta.hasKey m k = true →
      Meta.get (m.map (fun kv => if kv.1 = k then (k, v) else kv)) k = some v := by
  intro m
  induction m with
  | nil => intro h; exact absurd h (by simp [Meta.hasKey])
  | cons kv rest ih =>
      intro h
      by_cases hk : kv.1 = k
      · simp only [List.map_cons, if_pos hk]
        unfold Meta.get
        rw [List.find?_cons_of_pos _ (by simp)]
        rfl
      · simp only [List.map_cons, if_neg hk]
        unfold Meta.get
        rw [List.find?_cons_of_neg _ (by simp [hk])]
        have hrest : Meta.hasKey rest k = true := by
          unfold Meta.hasKey at h ⊢
          simpa [hk] using h
        exact ih hrest

lemma meta_get_append (k : String) (v : MVal) :
    ∀ (m : Meta), Meta.hasKey m k = false →
      Meta.get (m ++ [(k, v)]) k = some v := by
  intro m
  induction m with
  | nil =>
      intro _
      unfold Meta.get
      rw [List.nil_append, List.find?_cons_of_pos _ (by simp)]
      rfl
  | cons kv rest ih =>
      intro h
      have hk : ¬ kv.1 = k := by
        intro hc
        unfold Meta.hasKey at h
        simp [hc] at h
      unfold Meta.get
      rw [List.cons_append, List.find?_cons_of_neg _ (by simp [hk])]
      have hrest : Meta.hasKey rest k = false := by
        unfold Meta.hasKey at h ⊢
        simp only [List.any_cons, Bool.or_eq_false_iff] at h
        exact h.2
      exact ih hrest

/-- Setting a dict key makes it readable back. -/
lemma meta_get_set (m : Meta) (k : String) (v : MVal) :
    Meta.get (Meta.set m k v) k = some v := by
  unfold Meta.set
  by_cases h : Meta.hasKey m k = true
  · rw [if_pos h]; exact meta_get_map_set k v m h
  · rw [if_neg h]
    exact meta_get_append k v m (Bool.not_eq_true _ ▸ h)

end MetaLemmas

section CitationLemmas

/-- A hit in the left part of an append is the hit of the append. -/
lemma find?_append_left {p : Row → Bool} {l₁ : List Row} (l₂ : List Row)
    {r : Row} (h : l₁.find? p = some r) : (l₁ ++ l₂).find? p = some r := by
  rw [List.find?_append, h]; rfl

/-- Unfolding of the `_insert_citations` loop: it inserts exactly the
first occurrence of each previously unseen normalized title, with
consecutive uuid counters, and counts them. -/
lemma insert_citations_go_spec (paper : Row) :
    ∀ (cs : List CitationRecord) (seen : List String) (inserted : Nat) (st : St),
    insert_citations_go paper cs seen inserted st =
      (inserted + (dedupNew cs seen).length,
       { st with
         papers := st.papers ++ mkCitationRows paper (dedupNew cs seen) st.nextId,
         nextId := st.nextId + (dedupNew cs seen).length,
         events := st.events ++ (dedupNew cs seen).map
           (fun c => .createPlaceholder (citationTitle c.raw_text)) }) := by
  intro cs
  induction cs with
  | nil =>
      intro seen inserted st
      simp [insert_citations_go, dedupNew, mkCitationRows]
  | cons c cs ih =>
      intro seen inserted st
      by_cases hmem : casefold (citationTitle c.raw_text) ∈ seen
      · rw [insert_citations_go, if_pos hmem]
        rw [ih seen inserted st]
        rw [dedupNew, normTitle]
        rw [if_pos hmem]
      · rw [insert_citations_go, if_neg hmem]
        rw [ih]
        rw [dedupNew, normTitle]
        rw [if_neg hmem]
        simp only [create_pdf_placeholder, mkCitationRows, mkCitationRow,
          List.length_cons, List.map_cons, Prod.mk.injEq, St.mk.injEq,
          List.append_assoc, List.singleton_append, List.cons_append,
          List.nil_append]
        exact ⟨by omega, trivial, trivial, by omega, trivial⟩

/-- Every row built by `mkCitationRows` is a `PDF Not Available`
placeholder one level below the parent, linked to it, inheriting its seed
number, and carrying a generated id. -/
lemma mkCitationRows_mem (paper : Row) :
    ∀ (ds : List CitationRecord) (k : Nat) (r : Row),
      r ∈ mkCitationRows paper ds k →
      r.status = .PDF_NOT_AVAILABLE ∧ r.level = paper.level + 1 ∧
      r.parent_id = some paper.id ∧ r.seed_number = paper.seed_number ∧
      ∃ n, r.id = .auto n := by
  intro ds
  induction ds with
  | nil => intro k r hr; exact absurd hr (by simp [mkCitationRows])
  | cons c cs ih =>
      intro k r hr
      rw [mkCitationRows] at hr
      rcases List.mem_cons.mp hr with h | h
      · subst h
        exact ⟨rfl, rfl, rfl, rfl, k, rfl⟩
      · exact ih (k + 1) r h

/-- The titles of the created placeholders, in order. -/
lemma mkCitationRows_titles (paper : Row) :
    ∀ (ds : List CitationRecord) (k : Nat),
      (mkCitationRows paper ds k).map (fun r => r.title) =
        ds.map (fun c => citationTitle c.raw_text) := by
  intro ds
  induction ds with
  | nil => intro k; rfl
  | cons c cs ih => intro k; simp [mkCitationRows, mkCitationRow, ih]

lemma mkCitationRows_length (paper : Row) :
    ∀ (ds : List CitationRecord) (k : Nat),
      (mkCitationRows paper ds k).length = ds.length := by
  intro ds
  induction ds with
  | nil => intro k; rfl
  | cons c cs ih => intro k; simp [mkCitationRows, ih]

lemma dedupNew_not_mem_seen :
    ∀ (cs : List CitationRecord) (seen : List String) (c : CitationRecord),
      c ∈ dedupNew cs seen → normTitle c.raw_text ∉ seen := by
  intro cs
  induction cs with
  | nil => intro seen c hc; exact absurd hc (by simp [dedupNew])
  | cons d ds ih =>
      intro seen c hc
      rw [dedupNew] at hc
      by_cases hmem : normTitle d.raw_text ∈ seen
      · rw [if_pos hmem] at hc
        exact ih seen c hc
      · rw [if_neg hmem] at hc
        rcases List.mem_cons.mp hc with h | h
        · subst h; exact hmem
        · intro hs
          exact ih _ c h (List.mem_cons_of_mem _ hs)

/-- The surviving citations have pairwise distinct normalized titles: one
placeholder per case-insensitively distinct normalized title. -/
lemma dedupNew_nodup :
    ∀ (cs : List CitationRecord) (seen : List String),
      ((dedupNew cs seen).map (fun c => normTitle c.raw_text)).Nodup := by
  intro cs
  induction cs with
  | nil => intro seen; simp [dedupNew]
  | cons d ds ih =>
      intro seen
      rw [dedupNew]
      by_cases hmem : normTitle d.raw_text ∈ seen
      · rw [if_pos hmem]; exact ih seen
      · rw [if_neg hmem]
        simp only [List.map_cons, List.nodup_cons]
        refine ⟨?_, ih _⟩
        intro hc
        obtain ⟨c, hcmem, hceq⟩ := List.mem_map.mp hc
        exact dedupNew_not_mem_seen ds _ c hcmem (hceq ▸ List.mem_cons_self _ _)

/-- Every citation's normalized title is covered: either it was already
seen or a surviving citation carries it. -/
lemma dedupNew_covers :
    ∀ (cs : List CitationRecord) (seen : List String) (c : CitationRecord),
      c ∈ cs → normTitle c.raw_text ∈ seen ∨
        normTitle c.raw_text ∈ (dedupNew cs seen).map (fun x => normTitle x.raw_text) := by
  intro cs
  induction cs with
  | nil => intro seen c hc; exact absurd hc (by simp)
  | cons d ds ih =>
      intro seen c hc
      rw [dedupNew]
      by_cases hmem : normTitle d.raw_text ∈ seen
      · rw [if_pos hmem]
        rcases List.mem_cons.mp hc with h | h
        · subst h; exact Or.inl hmem
        · exact ih seen c h
      · rw [if_neg hmem]
        simp only [List.map_cons]
        rcases List.mem_cons.mp hc with h | h
        · subst h; exact Or.inr (List.mem_cons_self _ _)
        · rcases ih (normTitle d.raw_text :: seen) c h with hs | hs
          · rcases List.mem_cons.mp hs with h1 | h1
            · exact Or.inr (h1 ▸ List.mem_cons_self _ _)
            · exact Or.inl h1
          · exact Or.inr (List.mem_cons_of_mem _ hs)

end CitationLemmas

/-- C4: when the record's score is missing or strictly below the
threshold, or its text reference is missing, `extract_citations` returns
a failure outcome and leaves the repository state entirely unchanged (no
repository call is even made). -/
theorem extract_citations_precondition_no_mutation (storage : Storage)
    (extractor : String → Except String (List CitationRecord))
    (threshold : Rat) (paper : Row) (st : St)
    (h : paper.score = none ∨ (∃ q, paper.score = some q ∧ q < threshold) ∨
      paper.text_uri = none) :
    ∃ out, extract_citations storage extractor threshold paper st =
      .ok (out, st) ∧ out.success = false := by
  rcases h with h | ⟨q, hq, hlt⟩ | h
  · exact ⟨{ paper_id := paper.id, stage := "citations", success := false,
             message := "paper below threshold" },
      by simp only [extract_citations, h], rfl⟩
  · refine ⟨{ paper_id := paper.id, stage := "citations", success := false,
              message := "paper below threshold" }, ?_, rfl⟩
    simp only [extract_citations, hq]
    rw [if_pos hlt]
  · cases hsc : paper.score with
    | none =>
        exact ⟨{ paper_id := paper.id, stage := "citations", success := false,
                 message := "paper below threshold" },
          by simp only [extract_citations, hsc], rfl⟩
    | some q =>
        by_cases hlt : q < threshold
        · refine ⟨{ paper_id := paper.id, stage := "citations", success := false,
                    message := "paper below threshold" }, ?_, rfl⟩
          simp only [extract_citations, hsc]
          rw [if_pos hlt]
        · refine ⟨{ paper_id := paper.id, stage := "citations", success := false,
                    message := "paper missing text" }, ?_, rfl⟩
          simp only [extract_citations, hsc, h]
          rw [if_neg hlt]

/-- Concrete instance of C4: a below-threshold scored record is
soft-blocked with no mutation. -/
theorem extract_citations_precondition_no_mutation_witness :
    ∃ out, extract_citations c2Storage (fun _ => .ok []) 7 c4Paper c4St =
      .ok (out, c4St) ∧ out.success = false :=
  extract_citations_precondition_no_mutation c2Storage (fun _ => .ok []) 7
    c4Paper c4St (Or.inr (Or.inl ⟨5, rfl, by norm_num⟩))

/-- C3 (amended): with `score >= threshold` and a text reference,
`extract_citations` creates exactly one `PDF Not Available` placeholder
per distinct normalized citation title — the raw string stripped,
truncated to 255 characters, defaulting to "Citation" when empty, and
compared casefolded — each at `level + 1` with `parent_id = record.id`
and the record's `seed_number`, and moves the record to `Processed` with
`metadata.citation_count` equal to the number of placeholders created. -/
theorem extract_citations_dedup_normalized_titles (storage : Storage)
    (extractor : String → Except String (List CitationRecord))
    (threshold : Rat) (paper : Row) (st : St)
    (q : Rat) (text_ref text : String) (citations : List CitationRecord)
    (r : Row)
    (hscore : paper.score = some q) (hq : threshold ≤ q)
    (htext : paper.text_uri = some text_ref)
    (hfetch : storage.fetch_blob text_ref = .ok text)
    (hcits : extractor text = .ok citations)
    (hr : st.papers.find? (fun row => decide (row.id = paper.id)) = some r)
    (hstr : ∃ v, paper.id = .str v) :
    ∃ out stF, extract_citations storage extractor threshold paper st =
        .ok (out, stF) ∧
      out.success = true ∧ out.message = "citations created" ∧
      stF.papers.drop st.papers.length =
        mkCitationRows paper (dedupNew citations []) st.nextId ∧
      (stF.papers.drop st.papers.length).length =
        (dedupNew citations []).length ∧
      (∀ row ∈ stF.papers.drop st.papers.length,
        row.status = .PDF_NOT_AVAILABLE ∧ row.level = paper.level + 1 ∧
        row.parent_id = some paper.id ∧
        row.seed_number = paper.seed_number) ∧
      ((dedupNew citations []).map (fun c => normTitle c.raw_text)).Nodup ∧
      (∀ c ∈ citations, normTitle c.raw_text ∈
        (dedupNew citations []).map (fun c => normTitle c.raw_text)) ∧
      dbStatus stF paper.id = some .PROCESSED ∧
      (stF.papers.find? (fun row => decide (row.id = paper.id))).map
          (fun row => Meta.get row.metadata "citation_count") =
        some (some (.n (dedupNew citations []).length)) ∧
      out.metadata = [("count", .n (dedupNew citations []).length)] := by
  have hfind : (st.papers ++
      mkCitationRows paper (dedupNew citations []) st.nextId).find?
        (fun row => decide (row.id = paper.id)) = some r :=
    find?_append_left _ hr
  have hidpres : ∀ row : Row,
      (([UpdateEntry.metadata (Meta.set paper.metadata "citation_count"
          (.n (0 + (dedupNew citations []).length)))].filter
            (fun u => !u.isAttemptsKey)).foldl applyUpdate
        { row with status := .PROCESSED, attempts := 0 }).id = row.id :=
    fun row => (update_state_row_spec _ _ row).2.2
  have hnewids : ∀ rr ∈ mkCitationRows paper (dedupNew citations []) st.nextId,
      ¬ rr.id = paper.id := by
    intro rr hrr
    obtain ⟨-, -, -, -, n, hid⟩ := mkCitationRows_mem paper _ _ _ hrr
    obtain ⟨v, hv⟩ := hstr
    rw [hid, hv]
    simp
  simp only [extract_citations, hscore]
  rw [if_neg (not_lt.mpr hq)]
  simp only [htext]
  rw [hfetch]
  simp only [exceptBindOk]
  rw [hcits]
  simp only [exceptBindOk, insert_citations]
  rw [insert_citations_go_spec]
  rw [update_state_eq_ok _ _ _ _ _ hfind]
  simp only [exceptBindOk, Nat.zero_add]
  refine ⟨_, _, rfl, rfl, rfl, ?_, ?_, ?_, dedupNew_nodup citations [],
    fun c hc => (dedupNew_covers citations [] c hc).resolve_left (by simp),
    ?_, ?_, rfl⟩
  · simp only [List.map_append]
    rw [show (mkCitationRows paper (dedupNew citations []) st.nextId).map
        (fun row => if row.id = paper.id then _ else row) =
        mkCitationRows paper (dedupNew citations []) st.nextId from ?_]
    · exact List.drop_left' (by rw [List.length_map])
    · calc (mkCitationRows paper (dedupNew citations []) st.nextId).map _
          = (mkCitationRows paper (dedupNew citations []) st.nextId).map id :=
            List.map_congr_left (fun rr hrr => by
              rw [if_neg (hnewids rr hrr)]; rfl)
        _ = _ := List.map_id _
  · simp only [List.map_append]
    rw [show (mkCitationRows paper (dedupNew citations []) st.nextId).map
        (fun row => if row.id = paper.id then _ else row) =
        mkCitationRows paper (dedupNew citations []) st.nextId from ?_]
    · rw [List.drop_left' (by rw [List.length_map])]
      exact mkCitationRows_length paper _ _
    · calc (mkCitationRows paper (dedupNew citations []) st.nextId).map _
          = (mkCitationRows paper (dedupNew citations []) st.nextId).map id :=
            List.map_congr_left (fun rr hrr => by
              rw [if_neg (hnewids rr hrr)]; rfl)
        _ = _ := List.map_id _
  · intro row hrow
    simp only [List.map_append] at hrow
    rw [show (mkCitationRows paper (dedupNew citations []) st.nextId).map
        (fun row => if row.id = paper.id then _ else row) =
        mkCitationRows paper (dedupNew citations []) st.nextId from ?_] at hrow
    · rw [List.drop_left' (by rw [List.length_map])] at hrow
      obtain ⟨h1, h2, h3, h4, -⟩ := mkCitationRows_mem paper _ _ _ hrow
      exact ⟨h1, h2, h3, h4⟩
    · calc (mkCitationRows paper (dedupNew citations []) st.nextId).map _
          = (mkCitationRows paper (dedupNew citations []) st.nextId).map id :=
            List.map_congr_left (fun rr hrr => by
              rw [if_neg (hnewids rr hrr)]; rfl)
        _ = _ := List.map_id _
  · unfold dbStatus
    rw [show ({ papers := _, pgx := _, nextId := _, events := _ } : St).papers
      = _ from rfl]
    rw [find?_map_update _ _ _ (fun row => (update_state_row_spec _ _ row).2.2),
      hfind]
    simp only [Option.map_some']
    rw [(update_state_row_spec _ _ r).2.1]
  · rw [find?_map_update _ _ _ (fun row => (update_state_row_spec _ _ row).2.2),
      hfind]
    simp only [Option.map_some']
    congr 1
    simp only [List.filter, UpdateEntry.isAttemptsKey, Bool.not_false,
      List.foldl_cons, List.foldl_nil, applyUpdate]
    exact meta_get_set _ _ _

/-- Concrete instance of C3 (amended): two distinct citations produce two
placeholders and a `citation_count` of 2. -/
theorem extract_citations_dedup_normalized_titles_witness :
    ∃ out stF, extract_citations c2Storage c3Extractor 7 c3Paper c3St =
        .ok (out, stF) ∧
      out.success = true ∧ out.message = "citations created" ∧
      stF.papers.drop c3St.papers.length =
        mkCitationRows c3Paper
          (dedupNew [{ raw_text := "1. First Ref" },
            { raw_text := "2. Second Ref" }] []) c3St.nextId ∧
      (stF.papers.drop c3St.papers.length).length =
        (dedupNew [{ raw_text := "1. First Ref" },
          { raw_text := "2. Second Ref" }] []).length ∧
      (∀ row ∈ stF.papers.drop c3St.papers.length,
        row.status = .PDF_NOT_AVAILABLE ∧ row.level = c3Paper.level + 1 ∧
        row.parent_id = some c3Paper.id ∧
        row.seed_number = c3Paper.seed_number) ∧
      ((dedupNew [{ raw_text := "1. First Ref" },
          { raw_text := "2. Second Ref" }] []).map
        (fun c => normTitle c.raw_text)).Nodup ∧
      (∀ c ∈ [({ raw_text := "1. First Ref" } : CitationRecord),
          { raw_text := "2. Second Ref" }],
        normTitle c.raw_text ∈
          (dedupNew [{ raw_text := "1. First Ref" },
            { raw_text := "2. Second Ref" }] []).map
            (fun c => normTitle c.raw_text)) ∧
      dbStatus stF c3Paper.id = some .PROCESSED ∧
      (stF.papers.find? (fun row => decide (row.id = c3Paper.id))).map
          (fun row => Meta.get row.metadata "citation_count") =
        some (some (.n (dedupNew [{ raw_text := "1. First Ref" },
          { raw_text := "2. Second Ref" }] []).length)) ∧
      out.metadata = [("count", .n (dedupNew [{ raw_text := "1. First Ref" },
        { raw_text := "2. Second Ref" }] []).length)] :=
  extract_citations_dedup_normalized_titles c2Storage c3Extractor 7 c3Paper
    c3St 9 "storage://texts/p3" "full text"
    [{ raw_text := "1. First Ref" }, { raw_text := "2. Second Ref" }]
    c3Paper rfl (by norm_num) rfl rfl rfl rfl ⟨"p3", rfl⟩

/-- Counterexample to C3 as stated: the extractor returns the two
citation strings "Ref" and " Ref", distinct even case-insensitively
(their casefolded forms differ), yet only one placeholder is inserted —
the dedup key is the stripped, truncated, casefolded title, not the raw
citation string. -/
theorem extract_citations_raw_string_dedup_counterexample :
    casefold "Ref" ≠ casefold " Ref" ∧
    extract_citations c2Storage c3xExtractor 7 c3xPaper c3xSt =
      .ok (c3xResult.1, c3xResult.2) ∧
    c3xResult.2.papers.length = c3xSt.papers.length + 1 ∧
    Meta.get c3xResult.1.metadata "count" = some (.n 1) :=
  ⟨by decide, rfl, rfl, rfl⟩

/-- C2: with a text reference, `score_text` persists `Scored` exactly when
the collaborator's score reaches the threshold (`>=`, boundary inclusive)
and `Processed (Low Score)` when it is strictly below; both are success
outcomes.  Without a text reference the record is failed and the outcome
is a failure. -/
theorem score_text_threshold_inclusive (storage : Storage)
    (scorer : String → Option Nat → Except String ScoreResult)
    (threshold : Rat) (paper : Row) (st : St)
    (hid : (st.papers.find? (fun r => decide (r.id = paper.id))).isSome = true) :
    (∀ text_ref text result,
      paper.text_uri = some text_ref →
      storage.fetch_blob text_ref = .ok text →
      scorer text paper.seed_number = .ok result →
      ∃ out st', score_text storage scorer threshold paper st = .ok (out, st') ∧
        out.success = true ∧
        dbStatus st' paper.id = some (if threshold ≤ result.score
          then PaperState.SCORED else PaperState.PROCESSED_LOW_SCORE)) ∧
    (paper.text_uri = none →
      ∃ out st', score_text storage scorer threshold paper st = .ok (out, st') ∧
        out.success = false ∧ dbStatus st' paper.id = some .FAILED) := by
  obtain ⟨r, hr⟩ := Option.isSome_iff_exists.mp hid
  constructor
  · intro text_ref text result htext hfetch hscore
    simp only [score_text, htext, register_score]
    rw [hfetch]
    simp only [exceptBindOk]
    rw [hscore]
    simp only [exceptBindOk]
    rw [update_state_eq_ok _ _ _ _ _ hr]
    exact ⟨_, _, rfl, rfl,
      dbStatus_after_update _ _ _ _ _ _ (update_state_eq_ok _ _ _ _ _ hr)⟩
  · intro hnone
    simp only [score_text, hnone]
    rw [update_state_eq_ok _ _ _ _ _ hr]
    exact ⟨_, _, rfl, rfl,
      dbStatus_after_update _ _ _ _ _ _ (update_state_eq_ok _ _ _ _ _ hr)⟩

/-- Concrete instance of C2: threshold 7.0 with score exactly 7.0 lands on
`Scored` (the boundary is inclusive). -/
theorem score_text_threshold_inclusive_witness :
    ∃ out st', score_text c2Storage c2Scorer 7 c2Paper c2St = .ok (out, st') ∧
      out.success = true ∧
      dbStatus st' c2Paper.id = some (if (7 : Rat) ≤ (7 : Rat)
        then PaperState.SCORED else PaperState.PROCESSED_LOW_SCORE) :=
  (score_text_threshold_inclusive c2Storage c2Scorer 7 c2Paper c2St rfl).1
    "storage://texts/p2" "full text"
    { score := 7, reason := "relevant", model_name := "m", duration_ms := 10 }
    rfl rfl rfl

/-- C1: for every paper id, new state and `updates` dict,
`PaperRepository.update_state` persists `attempts = 0` — in the returned
record and in every row the update touched — even when the dict carries a
nonzero `attempts` value (the key is stripped, never merged). -/
theorem update_state_resets_attempts (st : St) (pid : PaperId)
    (state : PaperState) (updates : List UpdateEntry) (row : Row) (st' : St)
    (h : update_state st pid state updates = .ok (row, st')) :
    row.attempts = 0 ∧ ∀ r ∈ st'.papers, r.id = pid → r.attempts = 0 := by
  obtain ⟨hrow, -, -, hpapers, -⟩ := update_state_ok h
  refine ⟨hrow, ?_⟩
  intro r hr hrid
  rw [hpapers] at hr
  obtain ⟨r0, hr0, hmap⟩ := List.mem_map.mp hr
  by_cases hc : r0.id = pid
  · rw [if_pos hc] at hmap
    rw [← hmap]
    exact (update_state_row_spec updates state r0).1
  · rw [if_neg hc] at hmap
    exact absurd (hmap ▸ hrid) hc

/-- Concrete instance of C1: updating a row while the `updates` dict tries
to smuggle `attempts = 5` still persists `attempts = 0`. -/
theorem update_state_resets_attempts_witness :
    c1Result.1.attempts = 0 ∧
    ∀ r ∈ c1Result.2.papers, r.id = .str "p1" → r.attempts = 0 :=
  update_state_resets_attempts c1St (.str "p1") .PROCESSED
    [.reason (some "done"), .attempts 5] c1Result.1 c1Result.2 rfl

section ProcessorLemmas

/-- A key just set by `setdefault` is present. -/
lemma meta_hasKey_setdefault (m : Meta) (k : String) (v : MVal) :
    Meta.hasKey (Meta.setdefault m k v) k = true := by
  unfold Meta.setdefault
  by_cases h : Meta.hasKey m k = true
  · rw [if_pos h]; exact h
  · rw [if_neg h]
    unfold Meta.hasKey at *
    simp [List.any_append]

end ProcessorLemmas

/-- C8 (amended): whenever a stage resolves for the record (explicitly or
inferred from its state) and the executor dict knows it,
`PaperProcessor.run` returns an outcome whose metadata carries a
`duration_ms` key, and an exception raised by the executed stage function
is converted — never propagated — into an outcome with `success = false`
and the exception text under `metadata.error`.  (A record with no
actionable stage returns the noop outcome early, without `duration_ms`.) -/
theorem run_annotates_duration_and_wraps_errors
    (executors : String → Option StageExecutor) (ex : StageExecutor)
    (paper : Row) (stage : Option String) (d : Nat) (st : St)
    (target : String) (paper1 : Row) (st1 : St)
    (htgt : stage.orElse (fun _ => stage_for_state paper.status) = some target)
    (hex : executors target = some ex)
    (hinc : mark_processing_attempt st paper = .ok (paper1, st1)) :
    ∃ out st2, PaperProcessor.run executors paper stage d st = .ok (out, st2) ∧
      Meta.hasKey out.metadata "duration_ms" = true ∧
      (∀ e st', ex paper1 st1 = (.error e, st') →
        out.success = false ∧ Meta.get out.metadata "error" = some (.s e)) := by
  simp only [PaperProcessor.run, htgt]
  rw [hinc]
  simp only [exceptBindOk]
  rw [hex]
  refine ⟨_, _, rfl, meta_hasKey_setdefault _ _ _, ?_⟩
  intro e st' herr
  rw [herr]
  exact ⟨rfl, rfl⟩

/-- Concrete instance of C8 (amended): an executor that raises "boom" on
a `Text Available` record yields a failure outcome with the error text
and a `duration_ms` key, with nothing propagated. -/
theorem run_annotates_duration_and_wraps_errors_witness :
    ∃ out st2, PaperProcessor.run c8Executors c8Paper none 5 c8St =
        .ok (out, st2) ∧
      Meta.hasKey out.metadata "duration_ms" = true ∧
      (∀ e st', c8Executor c8Inc.1 c8Inc.2 = (.error e, st') →
        out.success = false ∧ Meta.get out.metadata "error" = some (.s e)) :=
  run_annotates_duration_and_wraps_errors c8Executors c8Executor c8Paper
    none 5 c8St "scoring" c8Inc.1 c8Inc.2 rfl rfl rfl

/-- Counterexample to C8 as stated ("for every record"): a record in the
terminal state `Processed` with no explicit stage takes the noop
early-return, whose outcome metadata has no `duration_ms` key. -/
theorem run_noop_missing_duration_counterexample :
    PaperProcessor.run c8Executors c8xPaper none 5 c8xSt =
      .ok (c8xNoop, c8xSt) ∧
    Meta.hasKey c8xNoop.metadata "duration_ms" = false :=
  ⟨rfl, rfl⟩

section CollectLemmas

lemma collect_foldl_length (results : Nat → StageOutcome) :
    ∀ (schedule : List Nat) (acc : List (Option StageOutcome)),
      (schedule.foldl (collectStep results) acc).length = acc.length := by
  intro schedule
  induction schedule with
  | nil => intro acc; rfl
  | cons x xs ih =>
      intro acc
      rw [List.foldl_cons, ih]
      simp [collectStep]

lemma collect_foldl_not_mem (results : Nat → StageOutcome) :
    ∀ (schedule : List Nat) (acc : List (Option StageOutcome)) (i : Nat),
      i ∉ schedule →
      (schedule.foldl (collectStep results) acc)[i]? = acc[i]? := by
  intro schedule
  induction schedule with
  | nil => intro acc i _; rfl
  | cons x xs ih =>
      intro acc i hmem
      rw [List.foldl_cons, ih _ i (fun h => hmem (List.mem_cons_of_mem _ h))]
      refine List.getElem?_set_ne ?_
      intro h
      subst h
      exact hmem (List.mem_cons_self x xs)

lemma collect_foldl_mem (results : Nat → StageOutcome) :
    ∀ (schedule : List Nat) (acc : List (Option StageOutcome)) (i : Nat),
      i ∈ schedule → i < acc.length →
      (schedule.foldl (collectStep results) acc)[i]? =
        some (some (results i)) := by
  intro schedule
  induction schedule with
  | nil => intro acc i hmem _; exact absurd hmem (by simp)
  | cons x xs ih =>
      intro acc i hmem hlen
      rw [List.foldl_cons]
      by_cases hxs : i ∈ xs
      · exact ih _ i hxs (by simp [collectStep, hlen])
      · have hix : i = x := (List.mem_cons.mp hmem).resolve_right hxs
        subst hix
        rw [collect_foldl_not_mem results xs _ i hxs]
        unfold collectStep
        exact List.getElem?_set_self hlen

/-- `filterMap id` over a list of `some`s recovers the values. -/
lemma filterMap_id_map_some {α β : Type} (f : α → β) (l : List α) :
    (l.map (fun a => some (f a))).filterMap id = l.map f := by
  induction l with
  | nil => rfl
  | cons a l ih => simp only [List.map_cons, List.filterMap_cons, id, ih]

end CollectLemmas

/-- C9 (amended): under parallel execution the outcome list order is in
fact guaranteed: outcomes are collected into a buffer indexed by
submission position, so for EVERY completion schedule (any permutation of
the submitted indices) the returned list is exactly the submission-order
list of results; completion order affects only callback order. -/
theorem parallel_outcomes_preserve_submission_order (n : Nat)
    (results : Nat → StageOutcome) (schedule : List Nat)
    (hperm : schedule.Perm (List.range n)) :
    as_completed_collect n results schedule = (List.range n).map results := by
  unfold as_completed_collect
  have hslots : schedule.foldl (collectStep results)
      (List.replicate n (none : Option StageOutcome)) =
      (List.range n).map (fun i => some (results i)) := by
    apply List.ext_getElem?
    intro i
    by_cases hlt : i < n
    · rw [collect_foldl_mem results schedule _ i
        (hperm.mem_iff.mpr (List.mem_range.mpr hlt)) (by simp [hlt]),
        List.getElem?_map, List.getElem?_range hlt]
      rfl
    · rw [collect_foldl_not_mem results schedule _ i
        (fun hmem => hlt (List.mem_range.mp (hperm.subset hmem)))]
      rw [List.getElem?_map]
      rw [List.getElem?_eq_none (by simpa using Nat.le_of_not_lt hlt),
        List.getElem?_eq_none (by simpa using Nat.le_of_not_lt hlt)]
      rfl
  rw [hslots, filterMap_id_map_some results (List.range n)]

/-- Concrete instance of C9 (amended): with two submitted papers and the
reversed completion schedule, the outcome list still comes back in
submission order. -/
theorem parallel_outcomes_preserve_submission_order_witness :
    as_completed_collect 2 c9Results [1, 0] =
      (List.range 2).map c9Results :=
  parallel_outcomes_preserve_submission_order 2 c9Results [1, 0] (by decide)

/-- Counterexample to C9 as stated: with two distinct submitted records,
BOTH possible completion schedules of the pool produce the outcome list
in submission order — there is no schedule on which the order differs
(the buffer is indexed by submission position, not completion order). -/
theorem parallel_outcomes_order_counterexample :
    (c9Results 0).paper_id ≠ (c9Results 1).paper_id ∧
    ([0, 1] : List Nat).permutations' = [[0, 1], [1, 0]] ∧
    as_completed_collect 2 c9Results [0, 1] = [c9Results 0, c9Results 1] ∧
    as_completed_collect 2 c9Results [1, 0] = [c9Results 0, c9Results 1] :=
  ⟨by decide, by decide, rfl, rfl⟩

section PgxLemmas

/-- Binding an `Except.error` short-circuits. -/
lemma exceptBindErr {α β : Type} (e : String) (f : α → Except String β) :
    ((Except.error e : Except String α) >>= f) = .error e := rfl

/-- Characterization of a successful `increment_attempts`. -/
lemma increment_attempts_ok {st : St} {pid : PaperId} {current : Nat}
    {row : Row} {st' : St}
    (h : increment_attempts st pid current = .ok (row, st')) :
    row.attempts = current + 1 ∧ row.id = pid ∧
    st'.papers = st.papers.map (fun r =>
      if r.id = pid then { r with attempts := current + 1 } else r) ∧
    st'.events = st.events ++ [.incrementAttempts pid] ∧
    st'.pgx = st.pgx ∧ st'.nextId = st.nextId := by
  unfold increment_attempts at h
  cases hf : st.papers.find? (fun r => decide (r.id = pid)) with
  | none => rw [hf] at h; exact absurd h (by simp)
  | some r =>
      rw [hf] at h
      simp only [Except.ok.injEq, Prod.mk.injEq] at h
      obtain ⟨h1, h2⟩ := h
      have hid : r.id = pid := by simpa using List.find?_some hf
      refine ⟨by rw [← h1], by rw [← h1]; exact hid, ?_, ?_, ?_, ?_⟩ <;>
        rw [← h2]

/-- Unfolding equation for a successful `increment_attempts`. -/
lemma increment_attempts_eq_ok (st : St) (pid : PaperId) (current : Nat)
    (r : Row)
    (hf : st.papers.find? (fun row => decide (row.id = pid)) = some r) :
    increment_attempts st pid current = .ok ({ r with attempts := current + 1 },
      { st with
        papers := st.papers.map (fun row =>
          if row.id = pid then { row with attempts := current + 1 } else row),
        events := st.events ++ [.incrementAttempts pid] }) := by
  unfold increment_attempts
  rw [hf]

/-- A list with a member of the wanted id yields a `find?` hit. -/
lemma find?_isSome_of_exists {l : List Row} {pid : PaperId}
    (h : ∃ row ∈ l, row.id = pid) :
    ∃ r, l.find? (fun row => decide (row.id = pid)) = some r := by
  cases hf : l.find? (fun row => decide (row.id = pid)) with
  | some r => exact ⟨r, rfl⟩
  | none =>
      obtain ⟨row, hmem, hid⟩ := h
      have := List.find?_eq_none.mp hf row hmem
      simp [hid] at this

lemma countP1Fetches_append (a b : List Event) :
    countP1Fetches (a ++ b) = countP1Fetches a + countP1Fetches b := by
  simp [countP1Fetches, List.filter_append]

lemma countP1WipClaims_append (a b : List Event) :
    countP1WipClaims (a ++ b) = countP1WipClaims a + countP1WipClaims b := by
  simp [countP1WipClaims, List.filter_append]

/-- The row transformer of an `update_state` to a non-`P1`, non-`P1WIP`
state preserves ids and leaves no row in `P1` or `P1WIP`. -/
lemma pgx_apply_props (updates : List UpdateEntry) (target : PaperState)
    (h1 : target ≠ .P1) (h2 : target ≠ .P1_WIP) (row : Row) :
    ((updates.filter (fun u => !u.isAttemptsKey)).foldl applyUpdate
        { row with status := target, attempts := 0 }).id = row.id ∧
    ((updates.filter (fun u => !u.isAttemptsKey)).foldl applyUpdate
        { row with status := target, attempts := 0 }).status ≠ .P1 ∧
    ((updates.filter (fun u => !u.isAttemptsKey)).foldl applyUpdate
        { row with status := target, attempts := 0 }).status ≠ .P1_WIP := by
  refine ⟨(update_state_row_spec _ _ row).2.2, ?_, ?_⟩ <;>
    rw [(update_state_row_spec _ _ row).2.1] <;> assumption

/-- A successful run of the PGX stage function: it resolves the paper out
of `P1`/`P1WIP` by exactly one `update_state`, touches only the rows with
the paper's id, performs no `fetch_by_state(P1, ...)` query and no `P1WIP`
claim, and its trace contribution is the stage-entry event (with the
attempts count of the record it was handed) followed by events that are
never stage entries. -/
lemma process_pgx_ok
    (extractor : String → Except String (List SampleRow))
    (pageCount : String → Except String Nat) (storage : Storage)
    (table : String) (paper : Row) (pdf_bytes : Option String)
    (page_count : Option Nat) (st : St) (r : Row)
    (hr : st.papers.find? (fun row => decide (row.id = paper.id)) = some r) :
    ∃ (out : StageOutcome) (st' : St) (f : Row → Row),
      process_pgx_extraction extractor pageCount storage table
        paper pdf_bytes page_count st = .ok (out, st') ∧
      (∀ row : Row, (f row).id = row.id ∧ (f row).status ≠ .P1 ∧
        (f row).status ≠ .P1_WIP) ∧
      st'.papers = st.papers.map (fun row =>
        if row.id = paper.id then f row else row) ∧
      countP1Fetches st'.events = countP1Fetches st.events ∧
      countP1WipClaims st'.events = countP1WipClaims st.events ∧
      ∃ tail, st'.events = st.events ++ [.pgxExec paper.id paper.attempts]
          ++ tail ∧
        ∀ pid a, Event.pgxExec pid a ∉ tail := by
  cases hsrc : paper.source_uri with
  | none =>
      simp only [process_pgx_extraction, hsrc]
      rw [update_state_eq_ok { st with events := st.events ++ [Event.pgxExec paper.id paper.attempts] } _ _ _ _ hr]
      simp only [exceptBindOk]
      refine ⟨_, _, _, rfl,
        pgx_apply_props _ .P1_FAILURE (by simp) (by simp), rfl, ?_, ?_,
        [.updateState paper.id .P1_FAILURE], rfl, by simp⟩ <;>
        simp [countP1Fetches_append, countP1WipClaims_append,
          countP1Fetches, countP1WipClaims, Event.isP1Fetch,
          Event.isP1WipClaim, List.filter]
  | some src =>
      simp only [process_pgx_extraction, hsrc]
      split
      · simp only [pgxFail]
        rw [update_state_eq_ok { st with events := st.events ++ [Event.pgxExec paper.id paper.attempts] } _ _ _ _ hr]
        simp only [exceptBindOk]
        refine ⟨_, _, _, rfl,
          pgx_apply_props _ .P1_FAILURE (by simp) (by simp), rfl, ?_, ?_,
          [.updateState paper.id .P1_FAILURE], rfl, by simp⟩ <;>
          simp [countP1Fetches_append, countP1WipClaims_append,
            countP1Fetches, countP1WipClaims, Event.isP1Fetch,
            Event.isP1WipClaim, List.filter]
      · split
        · simp only [pgxFail]
          rw [update_state_eq_ok { st with events := st.events ++ [Event.pgxExec paper.id paper.attempts] } _ _ _ _ hr]
          simp only [exceptBindOk]
          refine ⟨_, _, _, rfl,
            pgx_apply_props _ .P1_FAILURE (by simp) (by simp), rfl, ?_, ?_,
            [.updateState paper.id .P1_FAILURE], rfl, by simp⟩ <;>
            simp [countP1Fetches_append, countP1WipClaims_append,
              countP1Fetches, countP1WipClaims, Event.isP1Fetch,
              Event.isP1WipClaim, List.filter]
        · split
          · simp only [pgxFail]
            rw [update_state_eq_ok { st with events := st.events ++ [Event.pgxExec paper.id paper.attempts] } _ _ _ _ hr]
            simp only [exceptBindOk]
            refine ⟨_, _, _, rfl,
              pgx_apply_props _ .P1_FAILURE (by simp) (by simp), rfl, ?_, ?_,
              [.updateState paper.id .P1_FAILURE], rfl, by simp⟩ <;>
              simp [countP1Fetches_append, countP1WipClaims_append,
                countP1Fetches, countP1WipClaims, Event.isP1Fetch,
                Event.isP1WipClaim, List.filter]
          · split
            · rw [update_state_eq_ok { st with events := st.events ++ [Event.pgxExec paper.id paper.attempts] } _ _ _ _ hr]
              simp only [exceptBindOk]
              refine ⟨_, _, _, rfl,
                pgx_apply_props _ .P1_FAILURE (by simp) (by simp), rfl, ?_, ?_,
                [.updateState paper.id .P1_FAILURE], rfl, by simp⟩ <;>
                simp [countP1Fetches_append, countP1WipClaims_append,
                  countP1Fetches, countP1WipClaims, Event.isP1Fetch,
                  Event.isP1WipClaim, List.filter]
            · rename_i samples heq hemp
              simp only [insert_pgx_extractions]
              rw [if_neg hemp]
              rw [update_state_eq_ok
                { papers := st.papers,
                  pgx := st.pgx ++ List.map (fun r => (table, paper.id, r)) samples,
                  nextId := st.nextId,
                  events := st.events ++ [Event.pgxExec paper.id paper.attempts]
                    ++ [Event.insertPgx paper.id samples.length] } _ _ _ _ hr]
              simp only [exceptBindOk]
              refine ⟨_, _, _, rfl,
                pgx_apply_props _ .P1_SUCCESS (by simp) (by simp), rfl,
                ?_, ?_,
                [.insertPgx paper.id samples.length,
                 .updateState paper.id .P1_SUCCESS], ?_, by simp⟩ <;>
                simp [countP1Fetches_append, countP1WipClaims_append,
                  countP1Fetches, countP1WipClaims, Event.isP1Fetch,
                  Event.isP1WipClaim, List.filter, List.append_assoc]

/-- A successful `update_state` implies the id was found. -/
lemma update_state_ok_found {st : St} {pid : PaperId} {state : PaperState}
    {updates : List UpdateEntry} {row : Row} {st' : St}
    (h : update_state st pid state updates = .ok (row, st')) :
    ∃ r0, st.papers.find? (fun r => decide (r.id = pid)) = some r0 := by
  unfold update_state at h
  cases hf : st.papers.find? (fun r => decide (r.id = pid)) with
  | none => rw [hf] at h; exact absurd h (by simp)
  | some r0 => exact ⟨r0, rfl⟩

/-- Two id-targeted row updates compose into one. -/
lemma map_ite_comp (l : List Row) (pid : PaperId) (f g : Row → Row)
    (hg : ∀ row, (g row).id = row.id) :
    (l.map (fun row => if row.id = pid then g row else row)).map
      (fun row => if row.id = pid then f row else row) =
    l.map (fun row => if row.id = pid then f (g row) else row) := by
  rw [List.map_map]
  apply List.map_congr_left
  intro row _
  by_cases h : row.id = pid
  · simp only [Function.comp_apply, if_pos h, if_pos ((hg row).trans h)]
  · simp only [Function.comp_apply, if_neg h]

/-- `pickCandidate` always returns a member of the pool. -/
lemma pickCandidate_mem (choose : Nat → Nat) (fuel : Nat) (c : Row)
    (cs : List Row) : pickCandidate choose fuel c cs ∈ c :: cs := by
  unfold pickCandidate
  exact List.get_mem _ _ _

/-- A record in the gated candidate pool is a stored `P1` row within the
attempt budget. -/
lemma pgx_candidates_sub {st : St} {limit : Nat} {sel : Row}
    (h : sel ∈ filter_processable (fetch_by_state st .P1 limit).1) :
    sel ∈ st.papers ∧ sel.status = .P1 ∧
      sel.attempts ≤ MAX_PROCESSING_ATTEMPTS := by
  unfold filter_processable at h
  obtain ⟨hmem, hatt⟩ := List.mem_filter.mp h
  unfold fetch_by_state at hmem
  have h2 : sel ∈ (st.papers.filter
      (fun r => decide (r.status = .P1))).insertionSort
        (fun a b => a.level ≤ b.level) := by
    exact List.mem_of_mem_take hmem
  have h4 := List.mem_filter.mp ((List.perm_insertionSort _ _).mem_iff.mp h2)
  exact ⟨h4.1, by simpa using h4.2, by simpa using hatt⟩

/-- One batch iteration after the pick: claims the candidate (`P1WIP`),
charges the attempt, runs the stage with the record carrying exactly one
attempt, resolves the row out of `P1`/`P1WIP`, touches only rows with the
candidate's id, performs no further `fetch_by_state(P1, ...)` query, and
claims `P1WIP` exactly once. -/
lemma pgx_claim_and_run_spec
    (extractor : String → Except String (List SampleRow))
    (pageCount : String → Except String Nat) (storage : Storage)
    (table : String) (sel : Row) (st : St) (r0 : Row)
    (hr : st.papers.find? (fun row => decide (row.id = sel.id)) = some r0) :
    ∃ (out : StageOutcome) (st3 : St) (g : Row → Row) (tail : List Event),
      pgx_claim_and_run extractor pageCount storage table sel st =
        .ok (out, st3) ∧
      (∀ row : Row, (g row).id = row.id ∧ (g row).status ≠ .P1 ∧
        (g row).status ≠ .P1_WIP) ∧
      st3.papers = st.papers.map (fun row =>
        if row.id = sel.id then g row else row) ∧
      countP1Fetches st3.events = countP1Fetches st.events ∧
      countP1WipClaims st3.events = countP1WipClaims st.events + 1 ∧
      st3.events = st.events ++ [.updateState sel.id .P1_WIP]
        ++ [.incrementAttempts sel.id] ++ [.pgxExec sel.id 1] ++ tail ∧
      (∀ pid a, Event.pgxExec pid a ∉ tail) := by
  unfold pgx_claim_and_run
  cases h1 : update_state st sel.id .P1_WIP [] with
  | error e =>
      exfalso
      rw [update_state_eq_ok _ _ _ _ _ hr] at h1
      simp at h1
  | ok p =>
      obtain ⟨paper, st1⟩ := p
      obtain ⟨hpat, hpst, hpid, hpap1, hev1, hpgx1, hnx1⟩ := update_state_ok h1
      simp only [exceptBindOk, mark_processing_attempt, hpat, hpid]
      have hfind1 : st1.papers.find? (fun row => decide (row.id = sel.id)) =
          some (([] : List UpdateEntry).filter (fun u => !u.isAttemptsKey)
            |>.foldl applyUpdate { r0 with status := .P1_WIP, attempts := 0 }) := by
        rw [hpap1, find?_map_update _ _ _
          (fun row => (update_state_row_spec [] .P1_WIP row).2.2), hr]
        rfl
      cases h2 : increment_attempts st1 sel.id 0 with
      | error e =>
          exfalso
          rw [increment_attempts_eq_ok st1 sel.id 0 _ hfind1] at h2
          simp at h2
      | ok p2 =>
          obtain ⟨updated, st2⟩ := p2
          obtain ⟨huat, huid, hpap2, hev2, hpgx2, hnx2⟩ :=
            increment_attempts_ok h2
          simp only [exceptBindOk]
          have hfind2 : st2.papers.find?
              (fun row => decide (row.id = updated.id)) =
              some ({ (List.foldl applyUpdate
                  { r0 with status := PaperState.P1_WIP, attempts := 0 }
                  (List.filter (fun u => !u.isAttemptsKey) []))
                with attempts := 0 + 1 }) := by
            rw [huid, hpap2,
              find?_map_update st1.papers sel.id
                (fun r => { r with attempts := 0 + 1 }) (fun row => rfl),
              hfind1]
            rfl
          obtain ⟨out, st3, f, hrun, hf, hpap3, hcf, hcw, tail, hev3, htail⟩ :=
            process_pgx_ok extractor pageCount storage table updated _ _ st2 _
              hfind2
          have hcomp : st3.papers = st.papers.map (fun row =>
              if row.id = sel.id then
                f { (List.foldl applyUpdate
                    { row with status := PaperState.P1_WIP, attempts := 0 }
                    (List.filter (fun u => !u.isAttemptsKey) []))
                  with attempts := 0 + 1 }
              else row) := by
            rw [hpap3, huid, hpap2, hpap1,
              map_ite_comp _ sel.id f (fun r => { r with attempts := 0 + 1 })
                (fun row => rfl),
              map_ite_comp st.papers sel.id
                (fun row => f { row with attempts := 0 + 1 })
                (fun row => List.foldl applyUpdate
                  { row with status := PaperState.P1_WIP, attempts := 0 }
                  (List.filter (fun u => !u.isAttemptsKey) []))
                (fun row => (update_state_row_spec [] .P1_WIP row).2.2)]
          refine ⟨out, st3, _, tail, hrun, ?_, hcomp, ?_, ?_, ?_, htail⟩
          · intro row
            refine ⟨?_, (hf _).2.1, (hf _).2.2⟩
            rw [(hf _).1]
            exact (update_state_row_spec [] .P1_WIP row).2.2
          · rw [hcf, hev2, hev1, countP1Fetches_append, countP1Fetches_append]
            simp [countP1Fetches, Event.isP1Fetch, List.filter]
          · rw [hcw, hev2, hev1, countP1WipClaims_append,
              countP1WipClaims_append]
            simp [countP1WipClaims, Event.isP1WipClaim, List.filter]
          · rw [hev3, huid, huat, hev2, hev1]

/-- Updating the (unique) selected `P1` row to a non-`P1` status drops
the `P1` population by exactly one. -/
lemma filterP1_claim_length :
    ∀ (l : List Row) (sel : Row) (g : Row → Row),
      (l.map (fun r => r.id)).Nodup → sel ∈ l → sel.status = .P1 →
      (∀ row, (g row).status ≠ .P1) →
      ((l.map (fun row => if row.id = sel.id then g row else row)).filter
        (fun r => decide (r.status = .P1))).length + 1 =
      (l.filter (fun r => decide (r.status = .P1))).length := by
  intro l
  induction l with
  | nil => intro sel g _ hmem; exact absurd hmem (by simp)
  | cons a t ih =>
      intro sel g hnd hmem hsel hg
      simp only [List.map_cons, List.nodup_cons] at hnd
      obtain ⟨ha, hndt⟩ := hnd
      by_cases hid : a.id = sel.id
      · have hsa : sel = a := by
          rcases List.mem_cons.mp hmem with h | h
          · exact h
          · exfalso
            exact ha (hid ▸ (List.mem_map.mpr ⟨sel, h, rfl⟩))
        have htmap : t.map (fun row =>
            if row.id = sel.id then g row else row) = t := by
          refine (List.map_congr_left (fun x hx => ?_)).trans (List.map_id t)
          have hxid : ¬ x.id = sel.id := fun hc =>
            ha (hid ▸ (List.mem_map.mpr ⟨x, hx, hc⟩))
          rw [if_neg hxid]
          rfl
        simp only [List.map_cons, if_pos hid, htmap]
        rw [List.filter_cons, List.filter_cons]
        rw [if_neg (by simp [hg a]), if_pos (by simp [hsa ▸ hsel])]
        simp
      · have hselt : sel ∈ t := by
          rcases List.mem_cons.mp hmem with h | h
          · exact absurd (show a.id = sel.id by rw [h]) hid
          · exact h
        simp only [List.map_cons, if_neg hid]
        rw [List.filter_cons, List.filter_cons]
        by_cases hap : a.status = .P1
        · rw [if_pos (by simp [hap]), if_pos (by simp [hap])]
          simp only [List.length_cons]
          have := ih sel g hndt hselt hsel hg
          omega
        · rw [if_neg (by simp [hap]), if_neg (by simp [hap])]
          exact ih sel g hndt hselt hsel hg

/-- An id-targeted update to a non-`P1` status keeps the attempt-budget
invariant on the remaining `P1` rows. -/
lemma budget_preserved {l : List Row} {pid : PaperId} {g : Row → Row}
    (hg : ∀ row, (g row).status ≠ .P1)
    (hb : ∀ r ∈ l, r.status = .P1 → r.attempts ≤ MAX_PROCESSING_ATTEMPTS) :
    ∀ r ∈ l.map (fun row => if row.id = pid then g row else row),
      r.status = .P1 → r.attempts ≤ MAX_PROCESSING_ATTEMPTS := by
  intro r hr hst
  obtain ⟨x, hx, hmap⟩ := List.mem_map.mp hr
  by_cases h : x.id = pid
  · rw [if_pos h] at hmap
    exact absurd (hmap ▸ hst : (g x).status = .P1) (hg x)
  · rw [if_neg h] at hmap
    subst hmap
    exact hb x hx hst

/-- An id-preserving targeted update keeps the ids nodup. -/
lemma nodup_ids_preserved {l : List Row} {pid : PaperId} {g : Row → Row}
    (hgid : ∀ row, (g row).id = row.id)
    (h : (l.map (fun r => r.id)).Nodup) :
    ((l.map (fun row => if row.id = pid then g row else row)).map
      (fun r => r.id)).Nodup := by
  rw [List.map_map]
  have hcomp : ((fun r : Row => r.id) ∘ fun row =>
      if row.id = pid then g row else row) = fun r : Row => r.id := by
    funext row
    by_cases hx : row.id = pid <;> simp [hx, hgid]
  rw [hcomp]
  exact h

/-- Batch induction: with `n ≤ k`, an all-within-budget `P1` population
of size `k` and unique row ids, `n` loop iterations succeed, produce `n`
outcomes, and add exactly `n` `fetch_by_state(P1, ...)` queries and `n`
`P1WIP` claims to the trace. -/
lemma pgx_batch_spec
    (extractor : String → Except String (List SampleRow))
    (pageCount : String → Except String Nat) (storage : Storage)
    (table : String) (choose : Nat → Nat) :
    ∀ (n : Nat) (st : St) (k : Nat),
      n ≤ k →
      (st.papers.filter (fun r => decide (r.status = .P1))).length = k →
      (∀ r ∈ st.papers, r.status = .P1 →
        r.attempts ≤ MAX_PROCESSING_ATTEMPTS) →
      (st.papers.map (fun r => r.id)).Nodup →
      ∃ outs st', process_pgx_extraction_batch extractor pageCount storage
          table choose n st = .ok (outs, st') ∧
        outs.length = n ∧
        countP1Fetches st'.events = countP1Fetches st.events + n ∧
        countP1WipClaims st'.events = countP1WipClaims st.events + n := by
  intro n
  induction n with
  | zero =>
      intro st k _ _ _ _
      exact ⟨[], st, rfl, rfl, by omega, by omega⟩
  | succ fuel ih =>
      intro st k hk hcount hbud hnd
      have hsortlen :
          ((st.papers.filter (fun r => decide (r.status = .P1))).insertionSort
            (fun a b => a.level ≤ b.level)).length = k :=
        ((List.perm_insertionSort _ _).length_eq).trans hcount
      have hall : ∀ r ∈ (((st.papers.filter
            (fun r => decide (r.status = .P1))).insertionSort
            (fun a b => a.level ≤ b.level)).take PGX_FETCH_LIMIT),
          decide (r.attempts ≤ MAX_PROCESSING_ATTEMPTS) = true := by
        intro r hr
        have h2 := List.mem_of_mem_take hr
        have h4 := List.mem_filter.mp
          ((List.perm_insertionSort _ _).mem_iff.mp h2)
        simpa using hbud r h4.1 (by simpa using h4.2)
      have hcand : filter_processable
          (fetch_by_state st .P1 PGX_FETCH_LIMIT).1 =
          ((st.papers.filter (fun r => decide (r.status = .P1))).insertionSort
            (fun a b => a.level ≤ b.level)).take PGX_FETCH_LIMIT := by
        unfold filter_processable fetch_by_state
        exact List.filter_eq_self.mpr hall
      have hclen : (filter_processable
          (fetch_by_state st .P1 PGX_FETCH_LIMIT).1).length =
          min PGX_FETCH_LIMIT k := by
        rw [hcand, List.length_take, hsortlen]
      have hcpos : 0 < (filter_processable
          (fetch_by_state st .P1 PGX_FETCH_LIMIT).1).length := by
        rw [hclen]
        exact Nat.lt_min.mpr ⟨by norm_num [PGX_FETCH_LIMIT], by omega⟩
      obtain ⟨c, cs, hcc⟩ : ∃ c cs, filter_processable
          (fetch_by_state st .P1 PGX_FETCH_LIMIT).1 = c :: cs := by
        cases hc : filter_processable
            (fetch_by_state st .P1 PGX_FETCH_LIMIT).1 with
        | nil => rw [hc] at hcpos; exact absurd hcpos (by simp)
        | cons c cs => exact ⟨c, cs, rfl⟩
      have hmemsel := pickCandidate_mem choose fuel c cs
      rw [← hcc] at hmemsel
      obtain ⟨hselpap, hselP1, -⟩ := pgx_candidates_sub hmemsel
      obtain ⟨r0, hr0⟩ := find?_isSome_of_exists ⟨_, hselpap, rfl⟩
      obtain ⟨out0, st3, g, tail, hrun, hg, hpap3, hcf, hcw, hev3, htail⟩ :=
        pgx_claim_and_run_spec extractor pageCount storage table
          (pickCandidate choose fuel c cs)
          (fetch_by_state st .P1 PGX_FETCH_LIMIT).2 r0 hr0
      have hpeq : (fetch_by_state st .P1 PGX_FETCH_LIMIT).2.papers
          = st.papers := rfl
      rw [hpeq] at hpap3
      have hdrop := filterP1_claim_length st.papers
        (pickCandidate choose fuel c cs) g hnd hselpap hselP1
        (fun row => (hg row).2.1)
      obtain ⟨rest, st4, hrec, hlen, hf4, hw4⟩ := ih st3 (k - 1)
        (by omega)
        (by rw [hpap3]; omega)
        (by rw [hpap3]; exact budget_preserved (fun row => (hg row).2.1) hbud)
        (by rw [hpap3]; exact nodup_ids_preserved (fun row => (hg row).1) hnd)
      have hfev : countP1Fetches
          (fetch_by_state st .P1 PGX_FETCH_LIMIT).2.events =
          countP1Fetches st.events + 1 := by
        have he : (fetch_by_state st .P1 PGX_FETCH_LIMIT).2.events =
            st.events ++ [.fetchByState .P1 PGX_FETCH_LIMIT] := rfl
        rw [he, countP1Fetches_append]
        simp [countP1Fetches, Event.isP1Fetch, List.filter]
      have hwev : countP1WipClaims
          (fetch_by_state st .P1 PGX_FETCH_LIMIT).2.events =
          countP1WipClaims st.events := by
        have he : (fetch_by_state st .P1 PGX_FETCH_LIMIT).2.events =
            st.events ++ [.fetchByState .P1 PGX_FETCH_LIMIT] := rfl
        rw [he, countP1WipClaims_append]
        simp [countP1WipClaims, Event.isP1WipClaim, List.filter]
      refine ⟨out0 :: rest, st4, ?_, by simp [hlen], by omega, by omega⟩
      simp only [process_pgx_extraction_batch, hcc]
      rw [hrun]
      simp only [exceptBindOk]
      rw [hrec]
      rfl

end PgxLemmas

/-- C7: a `process_pgx_extraction_batch` run with `batch_size = 2`
against a repository holding exactly 2 `P1` records (each within the
attempt budget, ids unique) performs exactly 2 `fetch_by_state(P1, ...)`
queries and exactly 2 `update_state` claims to `P1WIP`, returning 2
outcomes. -/
theorem pgx_batch_two_fetches_two_claims
    (extractor : String → Except String (List SampleRow))
    (pageCount : String → Except String Nat) (storage : Storage)
    (table : String) (choose : Nat → Nat) (st : St)
    (hcount : (st.papers.filter (fun r => decide (r.status = .P1))).length = 2)
    (hbud : ∀ r ∈ st.papers, r.status = .P1 →
      r.attempts ≤ MAX_PROCESSING_ATTEMPTS)
    (hnd : (st.papers.map (fun r => r.id)).Nodup) :
    ∃ outs st', process_pgx_extraction_batch extractor pageCount storage
        table choose 2 st = .ok (outs, st') ∧
      outs.length = 2 ∧
      countP1Fetches st'.events = countP1Fetches st.events + 2 ∧
      countP1WipClaims st'.events = countP1WipClaims st.events + 2 :=
  pgx_batch_spec extractor pageCount storage table choose 2 st 2
    (Nat.le_refl 2) hcount hbud hnd

/-- Concrete instance of C7: two `P1` rows, batch size 2 — two fetch
queries, two claims, two outcomes. -/
theorem pgx_batch_two_fetches_two_claims_witness :
    ∃ outs st', process_pgx_extraction_batch c7Extractor c7PageCount
        c5Storage "pgx_extractions" c7Choose 2 c7St = .ok (outs, st') ∧
      outs.length = 2 ∧
      countP1Fetches st'.events = countP1Fetches c7St.events + 2 ∧
      countP1WipClaims st'.events = countP1WipClaims c7St.events + 2 :=
  pgx_batch_two_fetches_two_claims c7Extractor c7PageCount c5Storage
    "pgx_extractions" c7Choose c7St rfl (by decide) (by decide)

/-- C10: every record selected by `process_pgx_extraction_batch` reaches
the stage function with `attempts` equal to exactly 1: the `P1 → P1WIP`
claim goes through `update_state`, which resets `attempts` to 0, and
`mark_processing_attempt` increments from that reset value, so any
stage-entry event the batch adds to the trace carries attempts = 1. -/
theorem pgx_stage_runs_with_attempts_one
    (extractor : String → Except String (List SampleRow))
    (pageCount : String → Except String Nat) (storage : Storage)
    (table : String) (choose : Nat → Nat) :
    ∀ (batch_size : Nat) (st : St) (outs : List StageOutcome) (st' : St),
      process_pgx_extraction_batch extractor pageCount storage table choose
        batch_size st = .ok (outs, st') →
      ∀ pid a, Event.pgxExec pid a ∈ st'.events →
        Event.pgxExec pid a ∈ st.events ∨ a = 1 := by
  intro batch_size
  induction batch_size with
  | zero =>
      intro st outs st' h pid a hmem
      simp only [process_pgx_extraction_batch, Except.ok.injEq,
        Prod.mk.injEq] at h
      obtain ⟨-, h2⟩ := h
      subst h2
      exact Or.inl hmem
  | succ fuel ih =>
      intro st outs st' h pid a hmem
      simp only [process_pgx_extraction_batch] at h
      split at h
      · simp only [Except.ok.injEq, Prod.mk.injEq] at h
        obtain ⟨-, h2⟩ := h
        subst h2
        simp only [fetch_by_state] at hmem
        rcases List.mem_append.mp hmem with hm | hm
        · exact Or.inl hm
        · simp at hm
      · rename_i c cs heq
        have hmemsel := pickCandidate_mem choose fuel c cs
        rw [← heq] at hmemsel
        obtain ⟨hselpap, -, -⟩ := pgx_candidates_sub hmemsel
        obtain ⟨r0, hr0⟩ := find?_isSome_of_exists ⟨_, hselpap, rfl⟩
        obtain ⟨out0, st3, g, tail, hrun, hg, hpap3, hcf, hcw, hev3, htail⟩ :=
          pgx_claim_and_run_spec extractor pageCount storage table
            (pickCandidate choose fuel c cs)
            (fetch_by_state st .P1 PGX_FETCH_LIMIT).2 r0 hr0
        rw [hrun] at h
        simp only [exceptBindOk] at h
        cases h4 : process_pgx_extraction_batch extractor pageCount storage
            table choose fuel st3 with
        | error e =>
            rw [h4] at h
            exact absurd h (by simp [exceptBindErr])
        | ok p =>
            obtain ⟨rest, st4⟩ := p
            rw [h4] at h
            simp only [exceptBindOk] at h
            injection h with hpair
            injection hpair with houts hst
            subst hst
            rcases ih st3 rest st4 h4 pid a hmem with hm | hm
            · rw [hev3] at hm
              simp only [fetch_by_state] at hm
              simp only [List.mem_append, List.mem_singleton] at hm
              rcases hm with ((((hm | hm) | hm) | hm) | hm) | hm
              · exact Or.inl hm
              · simp at hm
              · simp at hm
              · simp at hm
              · simp only [Event.pgxExec.injEq] at hm
                exact Or.inr hm.2
              · exact absurd hm (htail pid a)
            · exact Or.inr hm

/-- Concrete instance of C10: a single-record batch logs the stage entry
with attempts = 1. -/
theorem pgx_stage_runs_with_attempts_one_witness :
    Event.pgxExec (.str "a7") 1 ∈ c10St.events ∨ (1 : Nat) = 1 :=
  pgx_stage_runs_with_attempts_one c7Extractor c7PageCount c5Storage
    "pgx_extractions" c7Choose 1 c10St c10Result.1 c10Result.2 rfl
    (.str "a7") 1 (by decide)

end Aura
